import Mathlib

/-!
Verification of the rcav2 root-cause analyzer of cmdb2neo.

This file shallowly embeds the Go code of the Stage A / Stage B analyzer
(`internal/rcaV2`: the analyzer, its topology types and the graph
provider's chain assembly) into Lean and proves/refutes the spec claims
against it.

Modelling conventions:
* Go `string` is modelled as `List Char` (`Str`), compared
  lexicographically by code point, matching Go's byte-wise comparison on
  the ASCII data used throughout.
* Go `float64` is modelled with exact rationals `ℚ`.  The only IEEE
  artefacts the analyzer can produce are `+Inf` (immediately clamped to
  `1` by `Coverage`) and `NaN` (from `0/0` in `Coverage`); these are
  captured by the sum type `GoVal` with `nan`-propagating arithmetic and
  `nan`-false comparisons.
* Go maps are modelled as association lists in insertion order.  Every
  map the analyzer exports is sorted at the boundary, so insertion order
  is observable only through the candidate iteration order of
  `evaluate`/`postOrderEvaluate`; there the iteration order is an
  explicit parameter.
* The mutable pointer-linked tree (`*TopoNode` with `Parent`,
  `Children`) is modelled as an arena: an association list from node key
  to node record, with parent/children stored as keys.
* Go's unstable `sort.Slice` is modelled by a deterministic insertion
  sort with the corresponding `le` comparator.
-/

namespace RcaV2

/-- Model of a Go string: a list of characters. -/
abbrev Str := List Char

/-- Conversion from a Lean string literal to the model type. -/
def str (s : String) : Str := s.data

/-- Strict lexicographic comparison of model strings (Go `<` on strings). -/
def strLtB : Str → Str → Bool
  | [], [] => false
  | [], _ :: _ => true
  | _ :: _, [] => false
  | c :: cs, d :: ds =>
    if c.toNat < d.toNat then true
    else if d.toNat < c.toNat then false
    else strLtB cs ds

/-- Reflexive lexicographic comparison of model strings (Go `<=`). -/
def strLeB (a b : Str) : Bool := !(strLtB b a)

/-- Lookup in an association list modelling a Go map. -/
def alookup {α : Type} : List (Str × α) → Str → Option α
  | [], _ => none
  | (k', v) :: t, k => if k' = k then some v else alookup t k

/-- Go map assignment `m[k] = v`: replace the binding in place when the
key is present (Go map keys are unique, so replacing the first match is
the map semantics) or append a fresh binding. -/
def aset {α : Type} : List (Str × α) → Str → α → List (Str × α)
  | [], k, v => [(k, v)]
  | (k', w) :: t, k, v => if k' = k then (k', v) :: t else (k', w) :: aset t k v

/-- Go update of the value stored under a key through a pointer or a
re-assignment: apply `f` to the binding of `k`, leave everything else in
place. -/
def amodify {α : Type} : List (Str × α) → Str → (α → α) → List (Str × α)
  | [], _, _ => []
  | (k', v) :: t, k, f =>
    if k' = k then (k', f v) :: amodify t k f else (k', v) :: amodify t k f

/-- Insertion into a Go set modelled as a list of keys. -/
def addKey (l : List Str) (k : Str) : List Str :=
  if k ∈ l then l else l ++ [k]

/-- Insertion step of the deterministic insertion sort. -/
def insertSorted {α : Type} (le : α → α → Bool) (x : α) : List α → List α
  | [] => [x]
  | y :: ys => if le x y then x :: y :: ys else y :: insertSorted le x ys

/-- Deterministic insertion sort used to model the boundary sorts of the
analyzer (`sort.Slice`, `sort.Strings`). -/
def sortBy {α : Type} (le : α → α → Bool) (l : List α) : List α :=
  l.foldr (insertSorted le) []

/-- Model of a Go `float64` value reachable inside the analyzer: a real
number (exact rational) or `NaN`. -/
inductive GoVal where
  | num (q : ℚ)
  | nan
deriving DecidableEq

/-- Addition with IEEE `NaN` propagation. -/
def GoVal.add : GoVal → GoVal → GoVal
  | .num a, .num b => .num (a + b)
  | _, _ => .nan

/-- Multiplication with IEEE `NaN` propagation. -/
def GoVal.mul : GoVal → GoVal → GoVal
  | .num a, .num b => .num (a * b)
  | _, _ => .nan

/-- Comparison `v > q` of a Go float against a plain rational; false on
`NaN`, as in IEEE. -/
def GoVal.gtq : GoVal → ℚ → Bool
  | .num a, q => q < a
  | .nan, _ => false

/-- Comparison `v < q` of a Go float against a plain rational; false on
`NaN`. -/
def GoVal.ltq : GoVal → ℚ → Bool
  | .num a, q => a < q
  | .nan, _ => false

/-- Comparison `v > w` between Go floats; false whenever a `NaN` is
involved. -/
def GoVal.gt : GoVal → GoVal → Bool
  | .num a, .num b => b < a
  | _, _ => false

/-! ## Data model (types.go of package rcav2, `part_016`) -/

/-- NodeType is a string in the source (`type NodeType string`). -/
abbrev NodeType := Str

/-- ServerType is a string in the source (`type ServerType string`). -/
abbrev ServerType := Str

def NodeTypeApp : NodeType := str "App"
def NodeTypeVirtualMachine : NodeType := str "VirtualMachine"
def NodeTypeHostMachine : NodeType := str "HostMachine"
def NodeTypePhysicalMachine : NodeType := str "PhysicalMachine"
def NodeTypeNetPartition : NodeType := str "NetPartition"
def NodeTypeIDC : NodeType := str "IDC"

def ServerTypeHost : ServerType := str "1"
def ServerTypeVM : ServerType := str "2"
def ServerTypePhysical : ServerType := str "3"

/-- Reference to a topology node (struct `NodeRef`; the free-form `Labels`
and `Props` fields play no role in the analyzer's logic and are omitted
from the embedding). -/
structure NodeRef where
  key : Str
  type : NodeType
  name : Str
  idc : Str
  partn : Str
deriving DecidableEq

/-- Topology node: a `NodeRef` plus the baseline child cardinalities
(struct `Node`; `ChildCounts map[NodeType]int`). -/
structure Node where
  ref : NodeRef
  childCounts : List (NodeType × Int)
deriving DecidableEq

/-- Raw alarm event (struct `AlarmEvent`; `OccurredAt time.Time` is
modelled as a totally ordered natural number). -/
structure AlarmEvent where
  appName : Str
  datacenter : Str
  hostIP : Str
  ip : Str
  networkPartition : Str
  serverType : ServerType
  ruleName : Str
  occurredAt : Nat
deriving DecidableEq

/-- Compressed event reference (struct `AlarmEventRef`). -/
structure AlarmEventRef where
  id : Str
  ruleName : Str
  nodeType : NodeType
  occurred : Nat
deriving DecidableEq

/-- Per-child impact bucket on a tree node (struct `TopoImpact`). -/
structure TopoImpact where
  node : NodeRef
  events : List (Str × AlarmEventRef)
deriving DecidableEq

/-- Arena record for a Stage-B tree node (struct `TopoNode`).  The Go
struct holds `Parent *TopoNode` and `Children map[string]*TopoNode`;
following the spec's arena advice the pointers are modelled as node
keys into the index. -/
structure TopoNodeA where
  node : Node
  parent : Option Str
  children : List Str
  impacts : List (Str × TopoImpact)
  events : List (Str × AlarmEventRef)
deriving DecidableEq

/-- The shared tree of one analysis: `map[string]*TopoNode` keyed by node
key, in insertion order. -/
abbrev Index := List (Str × TopoNodeA)

/-- Per-event chain as resolved by the provider (struct `Chain`). -/
structure Chain where
  app : Option Node
  virtualMachine : Option Node
  hostMachine : Option Node
  physicalMachine : Option Node
  netPartition : Option Node
  idc : Option Node
deriving DecidableEq

/-- Score weights for one layer (struct `ScoreWeights` of the analyzer's
config; fields `Coverage`, `Impact`, `Base`). -/
structure ScoreWeights where
  coverage : ℚ
  impact : ℚ
  base : ℚ
deriving DecidableEq

/-- Per-layer thresholds (struct `LayerConfig`). -/
structure LayerConfig where
  coverageThreshold : ℚ
  minChildren : Int
  weights : ScoreWeights
deriving DecidableEq

/-- Analyzer configuration (struct `Config`).  `Layers` is a Go map used
only through lookup, modelled as a function into `Option`. -/
structure Config where
  hierarchy : List NodeType
  layers : NodeType → Option LayerConfig
  datacenters : List Str
  appOutageThreshold : ℚ
  requireFullMatch : Bool

/-- Stage-A outage row (struct `AppOutageNode`). -/
structure AppOutageNode where
  serverType : ServerType
  ip : Str
  hostIP : Str
  partn : Str
  ruleNames : List Str
deriving DecidableEq

/-- Stage-A verdict (struct `AppOutage`). -/
structure AppOutage where
  appName : Str
  datacenter : Str
  totalNodes : Int
  alarmedNodes : Int
  coverage : ℚ
  threshold : ℚ
  affectedNodes : List AppOutageNode
deriving DecidableEq

/-- Score breakdown (struct `ScoreDetail`). -/
structure ScoreDetail where
  coverage : GoVal
  impact : GoVal
  base : GoVal
  rawScore : GoVal
  normalized : GoVal
deriving DecidableEq

/-- Root-cause candidate (struct `Candidate`). -/
structure Candidate where
  node : NodeRef
  confidence : GoVal
  coverage : GoVal
  reason : Str
  metrics : ScoreDetail
  explained : List Str
deriving DecidableEq

/-- Recursive affected-subtree slice (struct `PathImpact`). -/
inductive PathImpact where
  | mk (node : NodeRef) (events : List AlarmEventRef) (impacts : List PathImpact)

/-- Node reference of a path impact. -/
def PathImpact.node : PathImpact → NodeRef
  | .mk n _ _ => n

/-- Events of a path impact. -/
def PathImpact.events : PathImpact → List AlarmEventRef
  | .mk _ e _ => e

/-- Nested impacts of a path impact. -/
def PathImpact.impacts : PathImpact → List PathImpact
  | .mk _ _ i => i

/-- Impact path of one candidate (struct `AlarmPath`). -/
structure AlarmPath where
  candidate : NodeRef
  impacts : List PathImpact

/-- Analysis result (struct `Result`). -/
structure Result where
  appOutages : List AppOutage
  candidates : List Candidate
  paths : List AlarmPath
  prompt : Str

/-- The zero `Result{}` value returned by `Analyze` on every error path. -/
def zeroResult : Result :=
  { appOutages := [], candidates := [], paths := [], prompt := [] }

/-! ## TopoNode methods (`part_016`) -/

/-- Method `ChildType`: the type of the first impact that carries at
least one event, iterated in map order (modelled by list order); empty
string when none qualifies. -/
def childTypeOf : List (Str × TopoImpact) → NodeType
  | [] => []
  | (_, impact) :: rest =>
    if impact.events.length = 0 then childTypeOf rest else impact.node.type

/-- Method `Coverage`:
a node with no children and no impacts yields `1.0`; otherwise
`float64(len(Impacts)) / float64(ChildCounts[ChildType()])`, clamped to
at most `1`.  The IEEE outcomes of the zero denominator are preserved:
`n/0 = +Inf` is clamped to `1` for `n > 0`, and `0/0` is `NaN`. -/
def Coverage (n : TopoNodeA) : GoVal :=
  if n.children = [] ∧ n.impacts = [] then .num 1
  else
    let childType := childTypeOf n.impacts
    let total : Int := ((alookup n.node.childCounts childType).getD 0)
    if total = 0 then
      (if n.impacts.length = 0 then .nan else .num 1)
    else
      let c : ℚ := (n.impacts.length : ℚ) / (total : ℚ)
      .num (if 1 < c then 1 else c)

/-- Method `ComputeScore`: `raw = Base + Coverage*coverage`, clamped into
`[0,1]` by the two `if` statements (NaN passes both comparisons false and
is kept).  The `Impact` weight is never read and the `Impact` field of
the result is never assigned (it stays at its zero value). -/
def ComputeScore (n : TopoNodeA) (weights : ScoreWeights) : ScoreDetail :=
  let coverage := Coverage n
  let raw := (GoVal.num weights.base).add ((GoVal.num weights.coverage).mul coverage)
  let raw1 := if raw.ltq 0 then .num 0 else raw
  let raw2 := if raw1.gtq 1 then .num 1 else raw1
  { coverage := coverage
    impact := .num 0
    base := .num weights.base
    rawScore := raw2
    normalized := raw2 }

/-- Update of the node stored at a key of the arena (the effect of
calling a pointer method on an interned `*TopoNode`). -/
def modifyNode (idx : Index) (k : Str) (f : TopoNodeA → TopoNodeA) : Index :=
  amodify idx k f

/-- Method `AddEvent` on the node at key `k`. -/
def addEventA (idx : Index) (k : Str) (id : Str) (ref : AlarmEventRef) : Index :=
  modifyNode idx k (fun n => { n with events := aset n.events id ref })

/-- Method `AttachChild` on the node at key `pk` with the interned child
at key `ck`: registers the child key and sets the child's parent. -/
def attachChildA (idx : Index) (pk : Str) (ck : Str) : Index :=
  modifyNode (modifyNode idx pk (fun n => { n with children := addKey n.children ck }))
    ck (fun c => { c with parent := some pk })

/-- Update of the events of the impact bucket at key `k` (the bucket is
a pointer in Go; the event is recorded through it). -/
def setImpactEvent (l : List (Str × TopoImpact)) (k : Str) (ref : AlarmEventRef) :
    List (Str × TopoImpact) :=
  amodify l k (fun imp => { imp with events := aset imp.events ref.id ref })

/-- Impact-bucket creation step of `AddImpact`: create the bucket for
the child when absent. -/
def impactBucketAdd (impacts : List (Str × TopoImpact)) (cref : NodeRef) :
    List (Str × TopoImpact) :=
  match alookup impacts cref.key with
  | some _ => impacts
  | none => impacts ++ [(cref.key, { node := cref, events := [] })]

/-- Method `AddImpact` on the node at key `pk`: creates the impact bucket
for the child if absent, then records the event in it. -/
def addImpactA (idx : Index) (pk : Str) (cref : NodeRef) (ref : AlarmEventRef) : Index :=
  modifyNode idx pk (fun n =>
    { n with impacts := setImpactEvent (impactBucketAdd n.impacts cref) cref.key ref })

/-! ## Analyzer helpers (`part_014`) -/

/-- Function `buildEventID`: `app|server_type|datacenter|ip|rule`. -/
def buildEventID (evt : AlarmEvent) : Str :=
  evt.appName ++ str "|" ++ evt.serverType ++ str "|" ++ evt.datacenter ++
    str "|" ++ evt.ip ++ str "|" ++ evt.ruleName

/-- Merge step of `ensureTopoNode` on an already-interned node: positive
incoming child counts are written over the stored ones; counts `<= 0`
are skipped. -/
def mergeChildCounts (stored : List (NodeType × Int)) (incoming : List (NodeType × Int)) :
    List (NodeType × Int) :=
  incoming.foldl (fun acc p => if p.2 ≤ 0 then acc else aset acc p.1 p.2) stored

/-- Function `NewTopoNode`. -/
def newTopoNode (node : Node) : TopoNodeA :=
  { node := node, parent := none, children := [], impacts := [], events := [] }

/-- Function `ensureTopoNode`: intern a resolved node into the index; on
a repeated key the existing record is kept and only positive child
counts are folded in.  Returns the updated index together with the
`NodeRef` of the interned record (the Go function returns the pointer). -/
def ensureTopoNode (idx : Index) (node : Node) : Index × NodeRef :=
  match alookup idx node.ref.key with
  | some existing =>
    (modifyNode idx node.ref.key (fun n =>
      { n with node := { n.node with
          childCounts := mergeChildCounts n.node.childCounts node.childCounts } }),
     existing.node.ref)
  | none => (idx ++ [(node.ref.key, newTopoNode node)], node.ref)

/-! ## Stage A (`computeAppOutages` and helpers, `part_014`) -/

/-- Function `normalizeEventKey`: collapse key of an alarmed node. -/
def normalizeEventKey (evt : AlarmEvent) : Str :=
  if evt.serverType = ServerTypeHost ∨ evt.serverType = ServerTypePhysical then
    (if evt.ip ≠ [] then evt.serverType ++ str ":" ++ evt.ip ++ str ":" ++ evt.datacenter
     else evt.serverType ++ str ":" ++ evt.hostIP ++ str ":" ++ evt.datacenter)
  else
    evt.serverType ++ str ":" ++ evt.ip ++ str ":" ++ evt.datacenter

/-- Per-key summary used by `collapseAlarmedNodes` (local struct
`nodeSummary`; the rule set is a list in insertion order). -/
structure NodeSummary where
  node : AppOutageNode
  rules : List Str

/-- Accumulation loop of `collapseAlarmedNodes`. -/
def collapseStep (summaries : List (Str × NodeSummary)) (evt : AlarmEvent) :
    List (Str × NodeSummary) :=
  let key := normalizeEventKey evt
  let summaries :=
    match alookup summaries key with
    | some _ => summaries
    | none => summaries ++ [(key,
        { node := { serverType := evt.serverType, ip := evt.ip, hostIP := evt.hostIP,
                    partn := evt.networkPartition, ruleNames := [] }
          rules := [] })]
  if evt.ruleName ≠ [] then
    amodify summaries key (fun s => { s with rules := addKey s.rules evt.ruleName })
  else summaries

/-- Function `sortedStrings`: sorted list of the keys of a string set. -/
def sortedStrings (rules : List Str) : List Str := sortBy strLeB rules

/-- Function `collapseAlarmedNodes`: collapse a group's events into
alarmed nodes keyed by `normalizeEventKey`, each keeping the sorted set
of rule names. -/
def collapseAlarmedNodes (events : List AlarmEvent) : List (Str × AppOutageNode) :=
  if events = [] then []
  else
    let summaries := events.foldl collapseStep []
    summaries.map (fun p => (p.1, { p.2.node with ruleNames := sortedStrings p.2.rules }))

/-- Group of events sharing `(app_name, datacenter)` (struct `appGroup`). -/
structure AppGroup where
  appName : Str
  idc : Str
  events : List AlarmEvent

/-- Go `strings.TrimSpace` restricted to the blank test the analyzer
performs: a string is blank when every character is whitespace. -/
def isBlank (s : Str) : Bool := s.all (fun c => c = ' ' ∨ c = '\t' ∨ c = '\n' ∨ c = '\r')

/-- Grouping loop of `computeAppOutages`: partition events by
`app_name + "|" + datacenter`, dropping blank app names. -/
def buildGroups (events : List AlarmEvent) : List (Str × AppGroup) :=
  events.foldl
    (fun groups evt =>
      if isBlank evt.appName then groups
      else
        let key := evt.appName ++ str "|" ++ evt.datacenter
        match alookup groups key with
        | some _ =>
          amodify groups key (fun g => { g with events := g.events ++ [evt] })
        | none => groups ++ [(key, { appName := evt.appName, idc := evt.datacenter, events := [evt] })])
    []

/-- Comparator of the `affected` sort: `(server_type, ip)` ascending. -/
def outageNodeLe (a b : AppOutageNode) : Bool :=
  if a.serverType = b.serverType then strLeB a.ip b.ip
  else strLeB a.serverType b.serverType

/-- Comparator of the outage sort: coverage descending, then app name
ascending, then datacenter ascending. -/
def outageLe (a b : AppOutage) : Bool :=
  if a.coverage = b.coverage then
    (if a.appName = b.appName then strLeB a.datacenter b.datacenter
     else strLeB a.appName b.appName)
  else decide (b.coverage ≤ a.coverage)

/-- Per-group body of `computeAppOutages`: skip on oracle error, on a
non-positive total, on an empty collapsed set and on coverage below the
threshold; otherwise emit the outage with sorted affected nodes. -/
def emitGroup (threshold : ℚ) (listApp : Str → Str → Except Str Int) (grp : AppGroup) :
    Option AppOutage :=
  if grp.events = [] then none
  else
    match listApp grp.appName grp.idc with
    | .error _ => none
    | .ok total =>
      if total ≤ 0 then none
      else
        let nodes := collapseAlarmedNodes grp.events
        if nodes = [] then none
        else
          let coverage : ℚ := (nodes.length : ℚ) / (total : ℚ)
          if coverage < threshold then none
          else
            some
              { appName := grp.appName
                datacenter := grp.idc
                totalNodes := total
                alarmedNodes := nodes.length
                coverage := coverage
                threshold := threshold
                affectedNodes := sortBy outageNodeLe (nodes.map (·.2)) }

/-- Method `computeAppOutages` (Stage A). -/
def computeAppOutages (cfg : Config) (listApp : Str → Str → Except Str Int)
    (events : List AlarmEvent) : List AppOutage :=
  let threshold := if cfg.appOutageThreshold ≤ 0 then (6 : ℚ)/10 else cfg.appOutageThreshold
  let groups := buildGroups events
  sortBy outageLe (groups.filterMap (fun p => emitGroup threshold listApp p.2))

/-! ## Tree building (the loop of `Analyze`, `part_014` lines 32-54) -/

/-- Resolved event record (`eventRecord` plus the resolved chain). -/
structure EventRecord where
  eventID : Str
  ruleName : Str
  occurred : Nat
  chain : List Node

/-- Inner loop of `Analyze` over one resolved chain, walking leaf to
root: intern the node, attach the event, and when a previous (child)
node exists attach it as a child and record the impact.  `child` carries
the `NodeRef` of the previously interned node (the Go loop keeps the
`*TopoNode` pointer). -/
def processChain (idx : Index) (rec : EventRecord) (child : Option NodeRef) :
    List Node → Index
  | [] => idx
  | node :: rest =>
    let interned := ensureTopoNode idx node
    let idx1 := addEventA interned.1 interned.2.key rec.eventID
      { id := rec.eventID, ruleName := rec.ruleName, nodeType := node.ref.type,
        occurred := rec.occurred }
    let idx2 :=
      match child with
      | none => idx1
      | some cref =>
        addImpactA (attachChildA idx1 interned.2.key cref.key) interned.2.key cref
          { id := rec.eventID, ruleName := rec.ruleName, nodeType := cref.type,
            occurred := rec.occurred }
    processChain idx2 rec (some interned.2) rest

/-- Tree-building phase of `Analyze`: fold every resolved event chain
into the shared index. -/
def buildIndex (records : List EventRecord) : Index :=
  records.foldl (fun idx rec => processChain idx rec none rec.chain) []

/-! ## Stage B evaluation (`evaluate`, `postOrderEvaluate`, `buildPath`,
`collectImpacts`, `collectEventIDs` of `part_014`) -/

/-- Fallback layer configuration used when `config.Layers` has no entry
for the node's type. -/
def fallbackLayer : LayerConfig :=
  { coverageThreshold := (6 : ℚ)/10, minChildren := 1,
    weights := { coverage := (7 : ℚ)/10, impact := 0, base := 0 } }

/-- Layer lookup with the in-code fallback. -/
def layerFor (cfg : Config) (t : NodeType) : LayerConfig :=
  (cfg.layers t).getD fallbackLayer

/-- Function `collectEventIDs`: the sorted keys of a node's event map. -/
def collectEventIDs (events : List (Str × AlarmEventRef)) : List Str :=
  sortBy strLeB (events.map (·.1))

/-- Comparator of the per-impact event sort: occurred ascending with the
event id as tie break. -/
def eventRefLe (a b : AlarmEventRef) : Bool :=
  if a.occurred = b.occurred then strLeB a.id b.id else decide (a.occurred ≤ b.occurred)

/-- Function `collectImpacts`: walk the node's impacts in ascending key
order; each yields a `PathImpact` with its events sorted by
`(occurred, id)` and, when the key is also an attached child, the
recursively collected impacts of that child.  The recursion over the
pointer-linked tree is bounded by explicit fuel; with `fuel ≥` the
number of index entries it is exact on the acyclic trees `buildIndex`
produces. -/
def collectImpacts (idx : Index) : Nat → TopoNodeA → List PathImpact
  | 0, _ => []
  | fuel + 1, n =>
    if n.impacts = [] then []
    else
      let keys := sortBy strLeB (n.impacts.map (·.1))
      keys.filterMap (fun key =>
        match alookup n.impacts key with
        | none => none
        | some impact =>
          let events := sortBy eventRefLe (impact.events.map (·.2))
          let childImpacts :=
            if key ∈ n.children then
              match alookup idx key with
              | some child => collectImpacts idx fuel child
              | none => []
            else []
          some (PathImpact.mk impact.node events childImpacts))

/-- Function `buildPath` applied to an interned node. -/
def buildPath (idx : Index) (fuel : Nat) (n : TopoNodeA) : AlarmPath :=
  { candidate := n.node.ref, impacts := collectImpacts idx fuel n }

/-- Promotion test and candidate construction at one node: the body of
the `coverage > layerCfg.CoverageThreshold` branch of
`postOrderEvaluate`.  Note that `layerCfg.MinChildren` is never
consulted. -/
def promoteA (cfg : Config) (n : TopoNodeA) : Option Candidate :=
  let layerCfg := layerFor cfg n.node.ref.type
  let coverage := Coverage n
  if coverage.gtq layerCfg.coverageThreshold then
    let score := ComputeScore n layerCfg.weights
    some
      { node := n.node.ref
        confidence := score.normalized
        coverage := coverage
        reason := str "TREE_POSTORDER"
        metrics := score
        explained := collectEventIDs n.events }
  else none

/-- Method `postOrderEvaluate`: recurse into the children first (in map
order, modelled by the stored list order), then promote the current node
when its coverage exceeds the layer threshold, appending the candidate
and its alarm path.  A key missing from the index models the `nil`
guard.  Fuel bounds the pointer-chasing recursion. -/
def postOrderEvaluate (cfg : Config) (idx : Index) :
    Nat → Str → List Candidate × List AlarmPath
  | 0, _ => ([], [])
  | fuel + 1, key =>
    match alookup idx key with
    | none => ([], [])
    | some n =>
      let childRes := n.children.foldl
        (fun acc ck =>
          let r := postOrderEvaluate cfg idx fuel ck
          (acc.1 ++ r.1, acc.2 ++ r.2))
        ([], [])
      match promoteA cfg n with
      | some cand => (childRes.1 ++ [cand], childRes.2 ++ [buildPath idx fuel n])
      | none => childRes

/-- Root keys of the index: `evaluate` first deletes every node whose
parent pointer is set and iterates what remains. -/
def rootKeys (idx : Index) : List Str :=
  (idx.filter (fun p => p.2.parent = none)).map (·.1)

/-- Comparator of the candidate sort: confidence descending (`NaN`-false
comparison as in Go). -/
def candLe (a b : Candidate) : Bool := !(GoVal.gt b.confidence a.confidence)

/-- Comparator of the path sort: candidate key ascending. -/
def pathLe (a b : AlarmPath) : Bool := strLeB a.candidate.key b.candidate.key

/-- Method `evaluate`: run `postOrderEvaluate` on every root in the map
iteration order `order` (an explicit parameter, since Go map iteration
order is unspecified), then sort candidates by confidence descending and
paths by candidate key ascending. -/
def evaluate (cfg : Config) (idx : Index) (order : List Str) :
    List Candidate × List AlarmPath :=
  let fuel := idx.length
  let res := order.foldl
    (fun acc key =>
      let r := postOrderEvaluate cfg idx fuel key
      (acc.1 ++ r.1, acc.2 ++ r.2))
    ([], [])
  (sortBy candLe res.1, sortBy pathLe res.2)

/-! ## The `Analyze` facade (`part_014` lines 25-68) -/

/-- Resolution loop of `Analyze`: resolve every event in order; the
first failing resolution aborts with the wrapped error. -/
def resolveAll (resolve : AlarmEvent → Except Str (List Node)) :
    List AlarmEvent → Except Str (List EventRecord)
  | [] => .ok []
  | evt :: rest =>
    match resolve evt with
    | .error e =>
      .error (str "resolve topology for " ++ evt.appName ++ str "/" ++ evt.ip ++
        str " failed: " ++ e)
    | .ok chain =>
      match resolveAll resolve rest with
      | .error e => .error e
      | .ok recs =>
        .ok ({ eventID := buildEventID evt, ruleName := evt.ruleName,
               occurred := evt.occurredAt, chain := chain } :: recs)

/-- Method `Analyze`, returning the Go `(Result, error)` pair.  The
prompt renderer (out of the claims' scope) is an explicit deterministic
parameter; Stage B iterates the pruned root map in its stored order. -/
def AnalyzeGo (cfg : Config) (resolve : AlarmEvent → Except Str (List Node))
    (listApp : Str → Str → Except Str Int) (render : Result → Str)
    (events : List AlarmEvent) : Result × Option Str :=
  if events = [] then (zeroResult, some (str "empty alarms"))
  else
    let appOutages := computeAppOutages cfg listApp events
    match resolveAll resolve events with
    | .error e => (zeroResult, some e)
    | .ok records =>
      let idx := buildIndex records
      let evalRes := evaluate cfg idx (rootKeys idx)
      let res : Result :=
        { appOutages := appOutages, candidates := evalRes.1, paths := evalRes.2,
          prompt := [] }
      ({ res with prompt := render res }, none)

/-! ## Chain assembly of the graph provider
(`internal/rcaV2/provider.go`, `chainFromRecord` and helpers).  The
neo4j record is modelled after `nodeFromRecord` has decoded each slot:
six optional nodes plus the five child-count columns. -/

/-- Decoded oracle record: the six node slots and the five count columns
of the provider queries. -/
structure RecordSlots where
  app : Option Node
  vm : Option Node
  host : Option Node
  physical : Option Node
  np : Option Node
  idc : Option Node
  vmAppCount : Int
  hostVmCount : Int
  npHostCount : Int
  npPhysicalCount : Int
  idcNpCount : Int

/-- Function `setChildCount`: record a positive child count on a present
node; `nil` nodes, empty child types and non-positive values are
ignored. -/
def setChildCount (node : Option Node) (childType : NodeType) (value : Int) : Option Node :=
  match node with
  | none => none
  | some n =>
    if childType = [] then some n
    else if value ≤ 0 then some n
    else some { n with childCounts := aset n.childCounts childType value }

/-- Function `chainFromRecord`: assemble the six slots, apply the five
`setChildCount` updates, and drop the physical machine whenever a host
machine is also present. -/
def chainFromRecord (r : RecordSlots) : Chain :=
  let vm := setChildCount r.vm NodeTypeApp r.vmAppCount
  let host := setChildCount r.host NodeTypeVirtualMachine r.hostVmCount
  let np := setChildCount (setChildCount r.np NodeTypeHostMachine r.npHostCount)
    NodeTypePhysicalMachine r.npPhysicalCount
  let idc := setChildCount r.idc NodeTypeNetPartition r.idcNpCount
  let physical := if host.isSome ∧ r.physical.isSome then none else r.physical
  { app := r.app, virtualMachine := vm, hostMachine := host,
    physicalMachine := physical, netPartition := np, idc := idc }

/-- Function `chainToNodes`: the present slots in leaf-to-root order. -/
def chainToNodes (chain : Chain) : List Node :=
  [chain.app, chain.virtualMachine, chain.hostMachine, chain.physicalMachine,
   chain.netPartition, chain.idc].filterMap id

/-! ## Characterization helpers (definitions about the embedded code,
used to state theorems; not part of the Go source) -/

/-- Post-order enumeration of the node keys reachable from a root,
children (in stored order) before the node, with the same fuel
discipline as `postOrderEvaluate`. -/
def postorderKeys (idx : Index) : Nat → Str → List Str
  | 0, _ => []
  | fuel + 1, key =>
    match alookup idx key with
    | none => []
    | some n =>
      n.children.foldl (fun acc ck => acc ++ postorderKeys idx fuel ck) [] ++ [key]

/-- Promotion test by key: look the node up and apply `promoteA`. -/
def promoteK (cfg : Config) (idx : Index) (key : Str) : Option Candidate :=
  (alookup idx key).bind (promoteA cfg)

/-- Configuration with every configured layer's `min_children` replaced
by `m` (thresholds and weights untouched); used to state that the scorer
never consults `min_children`. -/
def withMinChildren (cfg : Config) (m : Int) : Config :=
  { cfg with layers := fun t => (cfg.layers t).map (fun lc => { lc with minChildren := m }) }

/-- Well-typedness of a decoded oracle record: each slot, when present,
carries the node type its query label matched (the provider queries bind
`app` to an `App` vertex, `host` to a `HostMachine` vertex, and so on). -/
def WellTypedSlots (rs : RecordSlots) : Prop :=
  (∀ n, rs.app = some n → n.ref.type = NodeTypeApp) ∧
  (∀ n, rs.vm = some n → n.ref.type = NodeTypeVirtualMachine) ∧
  (∀ n, rs.host = some n → n.ref.type = NodeTypeHostMachine) ∧
  (∀ n, rs.physical = some n → n.ref.type = NodeTypePhysicalMachine) ∧
  (∀ n, rs.np = some n → n.ref.type = NodeTypeNetPartition) ∧
  (∀ n, rs.idc = some n → n.ref.type = NodeTypeIDC)

/-- Entry key and node type of every interned tree node trace back to a
resolved chain node. -/
def nodeOriginP (records : List EventRecord) (p : Str × TopoNodeA) : Prop :=
  p.1 = p.2.node.ref.key ∧
  ∃ rec ∈ records, ∃ a ∈ rec.chain, a.ref.key = p.1 ∧ a.ref.type = p.2.node.ref.type

/-- Every event id recorded on a tree node comes from a record whose
chain passes through that node's key. -/
def eventCarrierP (records : List EventRecord) (p : Str × TopoNodeA) : Prop :=
  ∀ e : Str, (alookup p.2.events e).isSome →
    ∃ rec ∈ records, rec.eventID = e ∧ ∃ a ∈ rec.chain, a.ref.key = p.1

/-- Host machine of the C7 witness record. -/
def exC7host : Node :=
  { ref := { key := str "H7", type := str "HostMachine", name := str "h7",
             idc := str "dc", partn := [] }
    childCounts := [] }

/-- Concrete oracle record for the C7 witness: a host-only chain. -/
def exC7slots : RecordSlots :=
  { app := none, vm := none
    host := some exC7host
    physical := none, np := none, idc := none
    vmAppCount := 0, hostVmCount := 0, npHostCount := 0, npPhysicalCount := 0,
    idcNpCount := 0 }

/-- Concrete event record resolving through `exC7slots`. -/
def exC7rec : EventRecord :=
  { eventID := str "e7", ruleName := str "r", occurred := 0,
    chain := chainToNodes (chainFromRecord exC7slots) }

/-- The single tree entry built from the host-only record. -/
def exC7entry : TopoNodeA :=
  { node := exC7host
    parent := none
    children := []
    impacts := []
    events := [(str "e7", { id := str "e7", ruleName := str "r",
                            nodeType := str "HostMachine", occurred := 0 })] }

/-- Effective Stage-A threshold: the configured value, or `0.6` when the
configured value is not positive. -/
def effectiveThreshold (cfg : Config) : ℚ :=
  if cfg.appOutageThreshold ≤ 0 then (6 : ℚ)/10 else cfg.appOutageThreshold

/-! ## Spec-side definitions (refinement targets, written from the
spec's words, to be compared with the code-derived definitions) -/

/-- Clamp into `[0,1]` as the spec's `clamp01`. -/
def clamp01 (q : ℚ) : ℚ := if q < 0 then 0 else if 1 < q then 1 else q

/-- Confidence formula of spec §4.4:
`clamp01(base + weights.coverage·coverage + weights.impact·(|events_at_node|/|all_events|))`. -/
def specConfidence (w : ScoreWeights) (coverage : ℚ) (eventsAtNode allEvents : Nat) : ℚ :=
  clamp01 (w.base + w.coverage * coverage + w.impact * ((eventsAtNode : ℚ) / (allEvents : ℚ)))

/-- Coverage formula of spec §3:
`min(1, |impacted_children| / max(1, baseline_child_count_for_dominant_child_type))`,
with the dominant child type read off the impacts as the code does. -/
def specCoverage (n : TopoNodeA) : ℚ :=
  let total : Int := (alookup n.node.childCounts (childTypeOf n.impacts)).getD 0
  min 1 ((n.impacts.length : ℚ) / (max 1 total : ℚ))

/-! ## Concrete instances used by the counterexamples and witnesses -/

/-- Weights putting everything on coverage. -/
def wCov : ScoreWeights := { coverage := 1, impact := 0, base := 0 }

/-- Leaf node of the two-node chain: an App on key `C`. -/
def exC2nodeC : Node :=
  { ref := { key := str "C", type := str "App", name := str "c", idc := str "dc",
             partn := [] }
    childCounts := [] }

/-- Parent node of the two-node chain: a HostMachine on key `P` with a
baseline of one App child. -/
def exC2nodeP : Node :=
  { ref := { key := str "P", type := str "HostMachine", name := str "p", idc := str "dc",
             partn := [] }
    childCounts := [(str "App", 1)] }

/-- One event whose chain is `C` (leaf) then `P` (root). -/
def exC2rec : EventRecord :=
  { eventID := str "e1", ruleName := str "r", occurred := 0,
    chain := [exC2nodeC, exC2nodeP] }

/-- Configuration for the min-children counterexample: the HostMachine
layer demands `min_children = 2`, threshold `0`; the App layer's
threshold `2` keeps the leaf out of the candidate set. -/
def exC2cfg : Config :=
  { hierarchy := []
    layers := fun t =>
      if t = str "App" then
        some { coverageThreshold := 2, minChildren := 1, weights := wCov }
      else if t = str "HostMachine" then
        some { coverageThreshold := 0, minChildren := 2, weights := wCov }
      else none
    datacenters := []
    appOutageThreshold := 1
    requireFullMatch := false }

/-- The tree built from the single two-node chain. -/
def exC2idx : Index := buildIndex [exC2rec]

/-- Replacement of the impact component of a weight vector. -/
def setImpactW (lc : LayerConfig) (w : ℚ) : LayerConfig :=
  { lc with weights := { lc.weights with impact := w } }

/-- Configuration with every configured layer's impact weight replaced
by `w`; used to state that the scorer never reads the impact weight. -/
def withImpactWeight (cfg : Config) (w : ℚ) : Config :=
  { cfg with layers := fun t => (cfg.layers t).map (fun lc => setImpactW lc w) }

/-- Configuration promoting both layers of the two-node chain:
thresholds `0`, all weight on coverage. -/
def exC1cfg : Config :=
  { hierarchy := []
    layers := fun t =>
      if t = str "App" then
        some { coverageThreshold := 0, minChildren := 1, weights := wCov }
      else if t = str "HostMachine" then
        some { coverageThreshold := 0, minChildren := 1, weights := wCov }
      else none
    datacenters := []
    appOutageThreshold := 1
    requireFullMatch := false }

/-- Configuration whose only scoring weight is the impact weight. -/
def exC3cfg : Config :=
  { hierarchy := []
    layers := fun _ =>
      some { coverageThreshold := 0, minChildren := 1,
             weights := { coverage := 0, impact := 1, base := 0 } }
    datacenters := []
    appOutageThreshold := 1
    requireFullMatch := false }

/-- Single-node chain record: one event on the App `A`. -/
def exC3rec : EventRecord :=
  { eventID := str "e1", ruleName := str "r", occurred := 0,
    chain := [{ ref := { key := str "A", type := str "App", name := str "a",
                         idc := str "dc", partn := [] }
                childCounts := [] }] }

/-- The tree built from the single-node chain. -/
def exC3idx : Index := buildIndex [exC3rec]

/-- Host machine with a known fan-out of three virtual machines; leaf of
a single-node chain. -/
def exC4node : Node :=
  { ref := { key := str "H", type := str "HostMachine", name := str "h", idc := str "dc",
             partn := [] }
    childCounts := [(str "VirtualMachine", 3)] }

/-- Record of one host event whose chain is just the host. -/
def exC4rec : EventRecord :=
  { eventID := str "e1", ruleName := str "r", occurred := 0, chain := [exC4node] }

/-- The tree built from the single host chain. -/
def exC4idx : Index := buildIndex [exC4rec]

/-- Non-leaf tree node used to instantiate the coverage description: the
HostMachine `P` with one impacted App child and a baseline of one. -/
def exC4wNode : TopoNodeA :=
  { node := exC2nodeP
    parent := none
    children := [str "C"]
    impacts := [(str "C", { node := exC2nodeC.ref
                            events := [(str "e1", { id := str "e1", ruleName := str "r",
                                                    nodeType := str "App", occurred := 0 })] })]
    events := [] }

/-- First observation of the topology node `N`: five virtual machines. -/
def exC6nodeA : Node :=
  { ref := { key := str "N", type := str "HostMachine", name := str "n", idc := str "dc",
             partn := [] }
    childCounts := [(str "VirtualMachine", 5)] }

/-- Later observation of the same node `N`: three virtual machines. -/
def exC6nodeB : Node :=
  { ref := { key := str "N", type := str "HostMachine", name := str "n", idc := str "dc",
             partn := [] }
    childCounts := [(str "VirtualMachine", 3)] }

/-- Single-node chain on the App `A1`. -/
def exC5recA : EventRecord :=
  { eventID := str "ea", ruleName := str "r", occurred := 0,
    chain := [{ ref := { key := str "A1", type := str "App", name := str "a1",
                         idc := str "dc", partn := [] }
                childCounts := [] }] }

/-- Single-node chain on the App `A2`. -/
def exC5recB : EventRecord :=
  { eventID := str "eb", ruleName := str "r", occurred := 0,
    chain := [{ ref := { key := str "A2", type := str "App", name := str "a2",
                         idc := str "dc", partn := [] }
                childCounts := [] }] }

/-- Two-root tree whose roots both promote with identical confidence. -/
def exC5idx : Index := buildIndex [exC5recA, exC5recB]

/-- The parent entry of the two-node analysis, as interned by
`buildIndex [exC2rec]`. -/
def exC10node : TopoNodeA :=
  { node := exC2nodeP
    parent := none
    children := [str "C"]
    impacts := [(str "C", { node := exC2nodeC.ref
                            events := [(str "e1", { id := str "e1", ruleName := str "r",
                                                    nodeType := str "App",
                                                    occurred := 0 })] })]
    events := [(str "e1", { id := str "e1", ruleName := str "r",
                            nodeType := str "HostMachine", occurred := 0 })] }

/-- Stage-A example event: app `billing` in datacenter `M5` on one VM. -/
def exC8evt : AlarmEvent :=
  { appName := str "billing", datacenter := str "M5", hostIP := [], ip := str "10.0.0.1",
    networkPartition := [], serverType := str "2", ruleName := str "cpu", occurredAt := 0 }

/-- Stage-A oracle reporting one deployment target for every group. -/
def exC8listApp : Str → Str → Except Str Int := fun _ _ => Except.ok 1

/-- Stage-A configuration with threshold `1`. -/
def exC8cfg : Config :=
  { hierarchy := [], layers := fun _ => none, datacenters := [],
    appOutageThreshold := 1, requireFullMatch := false }

/-- The single `(billing, M5)` group of the one-event batch. -/
def exC8grp : AppGroup :=
  { appName := str "billing", idc := str "M5", events := [exC8evt] }

/-- The candidate the scorer produces for the single-node chain under
`exC3cfg`: the impact weight is `1` and the node carries the batch's
only event, yet the confidence is `0`. -/
def exC3cand : Candidate :=
  { node := { key := str "A", type := str "App", name := str "a", idc := str "dc",
              partn := [] }
    confidence := GoVal.num 0
    coverage := GoVal.num 1
    reason := str "TREE_POSTORDER"
    metrics := { coverage := GoVal.num 1, impact := GoVal.num 0, base := GoVal.num 0,
                 rawScore := GoVal.num 0, normalized := GoVal.num 0 }
    explained := [str "e1"] }

/-! ## Order lemmas for the model string comparison -/

theorem strLtB_irrefl (a : Str) : strLtB a a = false := by
  induction a with
  | nil => rfl
  | cons c cs ih => simp [strLtB, ih]

theorem strLtB_asymm {a b : Str} (h : strLtB a b = true) : strLtB b a = false := by
  induction a generalizing b with
  | nil =>
    cases b with
    | nil => simp [strLtB] at h
    | cons d ds => simp [strLtB]
  | cons c cs ih =>
    cases b with
    | nil => simp [strLtB] at h
    | cons d ds =>
      simp only [strLtB] at h ⊢
      rcases Nat.lt_trichotomy c.toNat d.toNat with hlt | heq | hgt
      · simp [hlt, Nat.lt_asymm hlt]
      · simp [heq, Nat.lt_irrefl] at h ⊢
        exact ih h
      · simp [hgt, Nat.lt_asymm hgt] at h

theorem strLtB_conn {a b : Str} (hab : strLtB a b = false) (hba : strLtB b a = false) :
    a = b := by
  induction a generalizing b with
  | nil =>
    cases b with
    | nil => rfl
    | cons d ds => simp [strLtB] at hab
  | cons c cs ih =>
    cases b with
    | nil => simp [strLtB] at hba
    | cons d ds =>
      simp only [strLtB] at hab hba
      rcases Nat.lt_trichotomy c.toNat d.toNat with hlt | heq | hgt
      · simp [hlt] at hab
      · simp [heq, Nat.lt_irrefl] at hab hba
        have : c = d := Char.ext (UInt32.ext heq)
        simp [this, ih hab hba]
      · simp [hgt] at hba

theorem strLtB_trans {a b c : Str} (hab : strLtB a b = true) (hbc : strLtB b c = true) :
    strLtB a c = true := by
  induction a generalizing b c with
  | nil =>
    cases c with
    | nil =>
      cases b with
      | nil => simpa using hab
      | cons d ds => simp [strLtB] at hbc
    | cons e es => simp [strLtB]
  | cons x xs ih =>
    cases b with
    | nil => simp [strLtB] at hab
    | cons y ys =>
      cases c with
      | nil => simp [strLtB] at hbc
      | cons z zs =>
        simp only [strLtB] at hab hbc ⊢
        rcases Nat.lt_trichotomy x.toNat y.toNat with h1 | h1 | h1
        · rcases Nat.lt_trichotomy y.toNat z.toNat with h2 | h2 | h2
          · simp [Nat.lt_trans h1 h2]
          · simp [h2 ▸ h1]
          · simp [h2, Nat.lt_asymm h2] at hbc
        · rcases Nat.lt_trichotomy y.toNat z.toNat with h2 | h2 | h2
          · simp [h1 ▸ h2]
          · have hxz : x.toNat = z.toNat := h1.trans h2
            simp [h1, Nat.lt_irrefl] at hab
            simp [h2, Nat.lt_irrefl] at hbc
            simp [hxz, Nat.lt_irrefl]
            exact ih hab hbc
          · simp [h2, Nat.lt_asymm h2] at hbc
        · simp [h1, Nat.lt_asymm h1] at hab

theorem strLeB_total (a b : Str) : strLeB a b = true ∨ strLeB b a = true := by
  by_cases h : strLtB b a = true
  · right
    simp [strLeB, strLtB_asymm h]
  · left
    simp [strLeB, eq_false_of_ne_true h]

theorem strLeB_trans {a b c : Str} (hab : strLeB a b = true) (hbc : strLeB b c = true) :
    strLeB a c = true := by
  simp only [strLeB, Bool.not_eq_true'] at hab hbc ⊢
  by_contra h
  replace h : strLtB c a = true := by simpa using h
  by_cases hac : strLtB a b = true
  · by_cases hbc2 : strLtB b c = true
    · have := strLtB_asymm (strLtB_trans hac hbc2)
      simp [h] at this
    · have hbeq : b = c := strLtB_conn (eq_false_of_ne_true hbc2) hbc
      subst hbeq
      have := strLtB_asymm hac
      simp [h] at this
  · have haeq : a = b := strLtB_conn (eq_false_of_ne_true hac) hab
    subst haeq
    simp [h] at hbc

theorem strLeB_antisymm {a b : Str} (hab : strLeB a b = true) (hba : strLeB b a = true) :
    a = b := by
  simp only [strLeB, Bool.not_eq_true'] at hab hba
  exact strLtB_conn hba hab

theorem strLeB_refl (a : Str) : strLeB a a = true := by
  simp [strLeB, strLtB_irrefl]

/-! ## Lemmas about the deterministic sort -/

theorem insertSorted_perm {α : Type} (le : α → α → Bool) (x : α) (l : List α) :
    (insertSorted le x l).Perm (x :: l) := by
  induction l with
  | nil => simp [insertSorted]
  | cons y ys ih =>
    simp only [insertSorted]
    by_cases h : le x y = true
    · simp [h]
    · simp only [h]
      exact ((ih.cons y).trans (List.Perm.swap x y ys)).symm.symm

theorem sortBy_perm {α : Type} (le : α → α → Bool) (l : List α) :
    (sortBy le l).Perm l := by
  induction l with
  | nil => simp [sortBy]
  | cons x xs ih =>
    have : sortBy le (x :: xs) = insertSorted le x (sortBy le xs) := rfl
    rw [this]
    exact (insertSorted_perm le x (sortBy le xs)).trans (ih.cons x)

theorem mem_sortBy {α : Type} {le : α → α → Bool} {l : List α} {a : α} :
    a ∈ sortBy le l ↔ a ∈ l := (sortBy_perm le l).mem_iff

theorem length_sortBy {α : Type} (le : α → α → Bool) (l : List α) :
    (sortBy le l).length = l.length := (sortBy_perm le l).length_eq

theorem insertSorted_pairwise {α : Type} {le : α → α → Bool} {x : α} {l : List α}
    (hl : l.Pairwise (fun a b => le a b = true))
    (htot : ∀ b ∈ l, le x b = true ∨ le b x = true)
    (htrans : ∀ b ∈ l, ∀ c ∈ l, le x b = true → le b c = true → le x c = true) :
    (insertSorted le x l).Pairwise (fun a b => le a b = true) := by
  induction l with
  | nil => simp [insertSorted]
  | cons y ys ih =>
    simp only [insertSorted]
    by_cases h : le x y = true
    · simp only [h, if_true]
      refine List.Pairwise.cons ?_ hl
      intro b hb
      rcases List.mem_cons.mp hb with rfl | hb'
      · exact h
      · rcases List.pairwise_cons.mp hl with ⟨hy, _⟩
        exact htrans y (by simp) b (by simp [hb']) h (hy b hb')
    · simp only [h, if_false]
      rcases List.pairwise_cons.mp hl with ⟨hy, hys⟩
      refine List.Pairwise.cons ?_ ?_
      · intro b hb
        have hb' : b = x ∨ b ∈ ys := by
          have := (insertSorted_perm le x ys).mem_iff.mp hb
          simpa using this
        rcases hb' with rfl | hb'
        · rcases htot y (by simp) with h' | h'
          · exact absurd h' (by simp [h])
          · exact h'
        · exact hy b hb'
      · exact ih hys (fun b hb => htot b (by simp [hb]))
          (fun b hb c hc => htrans b (by simp [hb]) c (by simp [hc]))

theorem sortBy_pairwise {α : Type} {le : α → α → Bool} {l : List α}
    (htot : ∀ a ∈ l, ∀ b ∈ l, le a b = true ∨ le b a = true)
    (htrans : ∀ a ∈ l, ∀ b ∈ l, ∀ c ∈ l, le a b = true → le b c = true → le a c = true) :
    (sortBy le l).Pairwise (fun a b => le a b = true) := by
  induction l with
  | nil => simp [sortBy]
  | cons x xs ih =>
    have hstep : sortBy le (x :: xs) = insertSorted le x (sortBy le xs) := rfl
    rw [hstep]
    have hx : x ∈ x :: xs := by simp
    refine insertSorted_pairwise ?_ ?_ ?_
    · exact ih (fun a ha b hb => htot a (by simp [ha]) b (by simp [hb]))
        (fun a ha b hb c hc => htrans a (by simp [ha]) b (by simp [hb]) c (by simp [hc]))
    · intro b hb
      exact htot x hx b (by simp [mem_sortBy.mp hb])
    · intro b hb c hc
      exact htrans x hx b (by simp [mem_sortBy.mp hb]) c (by simp [mem_sortBy.mp hc])

theorem eq_of_perm_of_strict_sorted {α : Type} {lt : α → α → Prop}
    (hasymm : ∀ a b, lt a b → lt b a → False) {l₁ l₂ : List α}
    (hperm : l₁.Perm l₂) (h₁ : l₁.Pairwise lt) (h₂ : l₂.Pairwise lt) : l₁ = l₂ :=
  @List.eq_of_perm_of_sorted _ lt ⟨fun a b h h' => (hasymm a b h h').elim⟩ _ _ hperm h₁ h₂

/-! ## Lemmas about the association-list map model -/

theorem alookup_append {α : Type} (l l' : List (Str × α)) (k : Str) :
    alookup (l ++ l') k =
      match alookup l k with
      | some v => some v
      | none => alookup l' k := by
  induction l with
  | nil => simp [alookup]
  | cons p t ih =>
    by_cases h : p.1 = k
    · simp [alookup, h]
    · simpa [alookup, h] using ih

theorem alookup_amodify {α : Type} (m : List (Str × α)) (k k' : Str) (f : α → α) :
    alookup (amodify m k f) k' =
      if k = k' then (alookup m k').map f else alookup m k' := by
  induction m with
  | nil => simp [alookup, amodify]
  | cons p t ih =>
    obtain ⟨pk, pv⟩ := p
    by_cases h1 : pk = k
    · subst h1
      by_cases h2 : pk = k'
      · subst h2
        simp [alookup, amodify, ih]
      · simp [alookup, amodify, h2, ih]
    · by_cases h2 : pk = k'
      · subst h2
        have h1' : ¬(k = pk) := fun h => h1 h.symm
        simp [alookup, amodify, h1, h1', ih]
      · simp [alookup, amodify, h1, h2, ih]

theorem alookup_modifyNode (idx : Index) (k k' : Str) (f : TopoNodeA → TopoNodeA) :
    alookup (modifyNode idx k f) k' =
      if k = k' then (alookup idx k').map f else alookup idx k' :=
  alookup_amodify idx k k' f

theorem alookup_aset {α : Type} (m : List (Str × α)) (k k' : Str) (v : α) :
    alookup (aset m k v) k' = if k = k' then some v else alookup m k' := by
  induction m with
  | nil =>
    by_cases h : k = k'
    · subst h
      simp [alookup, aset]
    · simp [alookup, aset, h, Ne.symm h]
  | cons p t ih =>
    obtain ⟨pk, pv⟩ := p
    by_cases h1 : pk = k
    · subst h1
      by_cases h2 : pk = k'
      · subst h2
        simp [alookup, aset]
      · simp [alookup, aset, h2]
    · by_cases h2 : pk = k'
      · subst h2
        have h1' : ¬(k = pk) := fun h => h1 h.symm
        simp [alookup, aset, h1, h1']
      · simp [alookup, aset, h1, h2, ih]

theorem amodify_map_fst {α : Type} (m : List (Str × α)) (k : Str) (f : α → α) :
    (amodify m k f).map Prod.fst = m.map Prod.fst := by
  induction m with
  | nil => simp [amodify]
  | cons p t ih =>
    obtain ⟨pk, pv⟩ := p
    by_cases h : pk = k
    · simp [amodify, h, ih]
    · simp [amodify, h, ih]

theorem aset_map_fst_of_isSome {α : Type} (m : List (Str × α)) (k : Str) (v : α)
    (h : (alookup m k).isSome) : (aset m k v).map Prod.fst = m.map Prod.fst := by
  induction m with
  | nil => simp [alookup] at h
  | cons p t ih =>
    obtain ⟨pk, pv⟩ := p
    by_cases h1 : pk = k
    · simp [aset, h1]
    · simp only [alookup, h1, if_false] at h
      simp [aset, h1, ih h]

theorem aset_of_none {α : Type} (m : List (Str × α)) (k : Str) (v : α)
    (h : alookup m k = none) : aset m k v = m ++ [(k, v)] := by
  induction m with
  | nil => simp [aset]
  | cons p t ih =>
    obtain ⟨pk, pv⟩ := p
    by_cases h1 : pk = k
    · simp [alookup, h1] at h
    · simp only [alookup, h1, if_false] at h
      simp [aset, h1, ih h]

/-! ## Fold bookkeeping lemmas for the post-order traversal -/

theorem foldl_append_acc {γ δ : Type} (g : γ → List δ) (l : List γ) :
    ∀ acc : List δ,
      l.foldl (fun a k => a ++ g k) acc = acc ++ l.foldl (fun a k => a ++ g k) [] := by
  induction l with
  | nil => intro acc; simp
  | cons x xs ih =>
    intro acc
    simp only [List.foldl_cons]
    rw [ih (acc ++ g x), ih ([] ++ g x)]
    simp

theorem foldl_pair_acc {γ α β : Type} (g : γ → List α × List β) (l : List γ) :
    ∀ acc : List α × List β,
      l.foldl (fun a k => (a.1 ++ (g k).1, a.2 ++ (g k).2)) acc
        = (acc.1 ++ l.foldl (fun a k => a ++ (g k).1) [],
           acc.2 ++ l.foldl (fun a k => a ++ (g k).2) []) := by
  induction l with
  | nil => intro acc; simp
  | cons x xs ih =>
    intro acc
    simp only [List.foldl_cons]
    rw [ih (acc.1 ++ (g x).1, acc.2 ++ (g x).2)]
    rw [foldl_append_acc (fun k => (g k).1) xs ([] ++ (g x).1)]
    rw [foldl_append_acc (fun k => (g k).2) xs ([] ++ (g x).2)]
    simp

theorem filterMap_foldl_append {γ δ ε : Type} (g : γ → List δ) (h : δ → Option ε)
    (l : List γ) :
    (l.foldl (fun a k => a ++ g k) []).filterMap h
      = l.foldl (fun a k => a ++ (g k).filterMap h) [] := by
  induction l with
  | nil => simp
  | cons x xs ih =>
    simp only [List.foldl_cons]
    rw [foldl_append_acc g xs ([] ++ g x),
      foldl_append_acc (fun k => (g k).filterMap h) xs ([] ++ (g x).filterMap h)]
    simp [List.filterMap_append, ih]

/-- Candidate characterization of the post-order scorer: the candidates
produced from a root are exactly the promotion test applied to every
node key in post-order.  The promotion test looks only at the coverage
against the layer threshold. -/
theorem postOrderEvaluate_fst (cfg : Config) (idx : Index) :
    ∀ (fuel : Nat) (key : Str),
      (postOrderEvaluate cfg idx fuel key).1
        = (postorderKeys idx fuel key).filterMap (promoteK cfg idx) := by
  intro fuel
  induction fuel with
  | zero => intro key; simp [postOrderEvaluate, postorderKeys]
  | succ fuel ih =>
    intro key
    simp only [postOrderEvaluate, postorderKeys]
    cases h : alookup idx key with
    | none => simp
    | some n =>
      simp only [List.filterMap_append]
      have hsingle : [key].filterMap (promoteK cfg idx) =
          match promoteA cfg n with
          | some cand => [cand]
          | none => [] := by
        simp only [List.filterMap]
        simp [promoteK, h]
        cases promoteA cfg n with
        | some c => simp
        | none => simp
      rw [hsingle]
      have hfold :
          (n.children.foldl
            (fun acc ck =>
              let r := postOrderEvaluate cfg idx fuel ck
              (acc.1 ++ r.1, acc.2 ++ r.2))
            ([], [])).1
            = (n.children.foldl (fun acc ck => acc ++ postorderKeys idx fuel ck)
                []).filterMap (promoteK cfg idx) := by
        rw [foldl_pair_acc (fun ck => postOrderEvaluate cfg idx fuel ck) n.children ([], [])]
        rw [filterMap_foldl_append (fun ck => postorderKeys idx fuel ck) (promoteK cfg idx)]
        simp only [ih]
        simp
      cases hp : promoteA cfg n with
      | some cand => simp [hp, hfold]
      | none => simp [hp, hfold]

end RcaV2

namespace RcaV2

/-- Promotion depends on the layer only through its threshold and
weights. -/
theorem promoteA_layer_congr (cfg cfg' : Config) (n : TopoNodeA)
    (hthr : (layerFor cfg n.node.ref.type).coverageThreshold
      = (layerFor cfg' n.node.ref.type).coverageThreshold)
    (hw : (layerFor cfg n.node.ref.type).weights = (layerFor cfg' n.node.ref.type).weights) :
    promoteA cfg n = promoteA cfg' n := by
  simp only [promoteA, hthr, hw]

theorem layerFor_withMinChildren (cfg : Config) (m : Int) (t : NodeType) :
    (layerFor (withMinChildren cfg m) t).coverageThreshold
        = (layerFor cfg t).coverageThreshold
      ∧ (layerFor (withMinChildren cfg m) t).weights = (layerFor cfg t).weights := by
  rcases h : cfg.layers t with _ | lc <;> simp [layerFor, withMinChildren, h]

/-- The scorer's output is unchanged when every layer's `min_children` is
replaced by an arbitrary value. -/
theorem postOrderEvaluate_withMinChildren (cfg : Config) (m : Int) (idx : Index) :
    ∀ (fuel : Nat) (key : Str),
      postOrderEvaluate (withMinChildren cfg m) idx fuel key
        = postOrderEvaluate cfg idx fuel key := by
  intro fuel
  induction fuel with
  | zero => intro key; simp [postOrderEvaluate]
  | succ fuel ih =>
    intro key
    simp only [postOrderEvaluate]
    cases h : alookup idx key with
    | none => simp
    | some n =>
      simp only [ih]
      rw [promoteA_layer_congr (withMinChildren cfg m) cfg n
        (layerFor_withMinChildren cfg m n.node.ref.type).1
        (layerFor_withMinChildren cfg m n.node.ref.type).2]

/-- C2.  The min-children gate does not exist in the code: a node is
promoted exactly when its coverage exceeds the layer's coverage
threshold (`promoteK`/`promoteA` test nothing else), and replacing every
layer's `min_children` by any value leaves the scorer's entire output
unchanged. -/
theorem claim_C2_amended :
    (∀ (cfg : Config) (idx : Index) (fuel : Nat) (key : Str),
      (postOrderEvaluate cfg idx fuel key).1
        = (postorderKeys idx fuel key).filterMap (promoteK cfg idx)) ∧
    (∀ (cfg : Config) (m : Int) (idx : Index) (fuel : Nat) (key : Str),
      postOrderEvaluate (withMinChildren cfg m) idx fuel key
        = postOrderEvaluate cfg idx fuel key) :=
  ⟨fun cfg idx fuel key => postOrderEvaluate_fst cfg idx fuel key,
   fun cfg m idx fuel key => postOrderEvaluate_withMinChildren cfg m idx fuel key⟩

/-- C2 counterexample.  In the tree built from the single chain
`C (App) → P (HostMachine)`, the node `P` has exactly one impacted
child while its layer demands `min_children = 2`, yet the post-order
scorer promotes `P` to candidate: the claim "a node with fewer impacted
children than min_children is never promoted" is false. -/
theorem claim_C2_counterexample :
    (alookup exC2idx (str "P")).map (fun n => n.impacts.length) = some 1 ∧
    (alookup exC2idx (str "P")).map (fun n => n.node.ref.type) = some (str "HostMachine") ∧
    (layerFor exC2cfg (str "HostMachine")).minChildren = 2 ∧
    (postOrderEvaluate exC2cfg exC2idx 2 (str "P")).1.map (fun c => c.node.key) = [str "P"] := by
  refine ⟨?_, ?_, ?_, ?_⟩ <;>
    simp +decide [exC2idx, exC2rec, exC2nodeC, exC2nodeP, exC2cfg, buildIndex, processChain,
      ensureTopoNode, newTopoNode, addEventA, attachChildA, addImpactA, modifyNode, amodify,
      aset, alookup, setImpactEvent, layerFor, postOrderEvaluate, promoteA, Coverage,
      childTypeOf, ComputeScore, collectEventIDs, sortBy, insertSorted, strLeB, strLtB,
      buildPath, collectImpacts, GoVal.gtq, GoVal.ltq, GoVal.add, GoVal.mul, eventRefLe,
      wCov, mergeChildCounts, str, div_one, Int.cast_one, Nat.cast_one]

/-- Promotion depends on the layer weights only through their base and
coverage components. -/
theorem promoteA_score_congr (cfg cfg' : Config) (n : TopoNodeA)
    (hthr : (layerFor cfg n.node.ref.type).coverageThreshold
      = (layerFor cfg' n.node.ref.type).coverageThreshold)
    (hb : (layerFor cfg n.node.ref.type).weights.base
      = (layerFor cfg' n.node.ref.type).weights.base)
    (hc : (layerFor cfg n.node.ref.type).weights.coverage
      = (layerFor cfg' n.node.ref.type).weights.coverage) :
    promoteA cfg n = promoteA cfg' n := by
  simp only [promoteA, ComputeScore, hthr, hb, hc]

theorem layerFor_withImpactWeight (cfg : Config) (w : ℚ) (t : NodeType) :
    (layerFor (withImpactWeight cfg w) t).coverageThreshold
        = (layerFor cfg t).coverageThreshold
      ∧ (layerFor (withImpactWeight cfg w) t).weights.base = (layerFor cfg t).weights.base
      ∧ (layerFor (withImpactWeight cfg w) t).weights.coverage
        = (layerFor cfg t).weights.coverage := by
  rcases h : cfg.layers t with _ | lc <;> simp [layerFor, withImpactWeight, setImpactW, h]

/-- The scorer's output is unchanged when every layer's impact weight is
replaced by an arbitrary value. -/
theorem postOrderEvaluate_withImpactWeight (cfg : Config) (w : ℚ) (idx : Index) :
    ∀ (fuel : Nat) (key : Str),
      postOrderEvaluate (withImpactWeight cfg w) idx fuel key
        = postOrderEvaluate cfg idx fuel key := by
  intro fuel
  induction fuel with
  | zero => intro key; simp [postOrderEvaluate]
  | succ fuel ih =>
    intro key
    simp only [postOrderEvaluate]
    cases h : alookup idx key with
    | none => simp
    | some n =>
      simp only [ih]
      rw [promoteA_score_congr (withImpactWeight cfg w) cfg n
        (layerFor_withImpactWeight cfg w n.node.ref.type).1
        (layerFor_withImpactWeight cfg w n.node.ref.type).2.1
        (layerFor_withImpactWeight cfg w n.node.ref.type).2.2]

/-- Inversion of the promotion test. -/
theorem promoteA_some_inv {cfg : Config} {n : TopoNodeA} {c : Candidate}
    (h : promoteA cfg n = some c) :
    (Coverage n).gtq (layerFor cfg n.node.ref.type).coverageThreshold = true ∧
      c = { node := n.node.ref
            confidence := (ComputeScore n (layerFor cfg n.node.ref.type).weights).normalized
            coverage := Coverage n
            reason := str "TREE_POSTORDER"
            metrics := ComputeScore n (layerFor cfg n.node.ref.type).weights
            explained := collectEventIDs n.events } := by
  by_cases hc : (Coverage n).gtq (layerFor cfg n.node.ref.type).coverageThreshold = true
  · refine ⟨hc, ?_⟩
    simp only [promoteA, hc, if_true] at h
    injection h with h2
    exact h2.symm
  · simp only [promoteA] at h
    rw [if_neg hc] at h
    exact absurd h (by simp)

/-- A coverage that passes the threshold test is a number. -/
theorem gtq_num {v : GoVal} {t : ℚ} (h : v.gtq t = true) : ∃ q : ℚ, v = GoVal.num q ∧ t < q := by
  cases v with
  | num q => exact ⟨q, rfl, by simpa [GoVal.gtq] using h⟩
  | nan => simp [GoVal.gtq] at h

/-- The two sequential clamping `if`s of `ComputeScore` compute the
spec's `clamp01`, and the impact component of the score stays at its zero
value. -/
theorem computeScore_normalized_eq (n : TopoNodeA) (w : ScoreWeights) (q : ℚ)
    (h : Coverage n = GoVal.num q) :
    (ComputeScore n w).normalized = GoVal.num (clamp01 (w.base + w.coverage * q)) ∧
      (ComputeScore n w).impact = GoVal.num 0 := by
  refine ⟨?_, by simp [ComputeScore]⟩
  simp only [ComputeScore, h, GoVal.add, GoVal.mul, GoVal.ltq, GoVal.gtq, clamp01]
  split_ifs with h1 h2 h3 h4 h5 <;> first
    | rfl
    | (exfalso; norm_num at *) <;> linarith

/-- Every produced candidate comes from promoting an interned node. -/
theorem mem_candidates_promoted {cfg : Config} {idx : Index} {fuel : Nat} {key : Str}
    {c : Candidate} (h : c ∈ (postOrderEvaluate cfg idx fuel key).1) :
    ∃ k n, alookup idx k = some n ∧ promoteA cfg n = some c := by
  rw [postOrderEvaluate_fst] at h
  rcases List.mem_filterMap.mp h with ⟨k, _, hk⟩
  rcases hbind : alookup idx k with _ | n
  · rw [promoteK, hbind] at hk
    simp at hk
  · rw [promoteK, hbind] at hk
    exact ⟨k, n, hbind, hk⟩

/-- C1.  Share semantics: promotion never consumes events.  Every
candidate the scorer produces carries, as its `Explained` set, the
sorted ids of all events attached to its node during tree construction
— including the events of every promoted descendant — and its coverage
is computed from the node's full impact map.  (Events are attached to
every node of their chain up to the root before evaluation starts, and
`postOrderEvaluate` never clears them.) -/
theorem claim_C1_amended (cfg : Config) (idx : Index) (fuel : Nat) (key : Str)
    (c : Candidate) (h : c ∈ (postOrderEvaluate cfg idx fuel key).1) :
    ∃ k n, alookup idx k = some n ∧ c.node = n.node.ref ∧
      c.explained = collectEventIDs n.events ∧ c.coverage = Coverage n := by
  rcases mem_candidates_promoted h with ⟨k, n, hlk, hp⟩
  rcases promoteA_some_inv hp with ⟨_, rfl⟩
  exact ⟨k, n, hlk, rfl, rfl, rfl⟩

/-- C1 counterexample.  One event `e1` flows through the chain
`C (App) → P (HostMachine)`; both nodes are promoted.  `P` is a strict
ancestor of the candidate `C` (it is `C`'s parent), yet `P`'s coverage
evaluation counts `e1` in its impact bucket and `P`'s `Explained` set
lists `e1`: the consume semantics claimed by the spec does not hold. -/
theorem claim_C1_counterexample :
    (postOrderEvaluate exC1cfg exC2idx 2 (str "P")).1.map
        (fun c => (c.node.key, c.explained)) =
      [(str "C", [str "e1"]), (str "P", [str "e1"])] ∧
    (alookup exC2idx (str "C")).map (fun n => n.parent) = some (some (str "P")) ∧
    (alookup exC2idx (str "P")).map
        (fun n => (n.children, n.impacts.map (fun p => (p.1, p.2.events.map (·.1))))) =
      some ([str "C"], [(str "C", [str "e1"])]) := by
  refine ⟨?_, ?_, ?_⟩ <;>
    simp +decide [exC2idx, exC2rec, exC2nodeC, exC2nodeP, exC1cfg, buildIndex, processChain,
      ensureTopoNode, newTopoNode, addEventA, attachChildA, addImpactA, modifyNode, amodify,
      aset, alookup, setImpactEvent, layerFor, postOrderEvaluate, promoteA, Coverage,
      childTypeOf, ComputeScore, collectEventIDs, sortBy, insertSorted, strLeB, strLtB,
      buildPath, collectImpacts, GoVal.gtq, GoVal.ltq, GoVal.add, GoVal.mul, eventRefLe,
      wCov, mergeChildCounts, str, div_one, Int.cast_one, Nat.cast_one]

/-- C1 witness: the share-semantics description instantiated on the
candidate of the concrete single-node analysis. -/
theorem claim_C1_witness :
    ∃ k n, alookup exC3idx k = some n ∧ exC3cand.node = n.node.ref ∧
      exC3cand.explained = collectEventIDs n.events ∧ exC3cand.coverage = Coverage n :=
  claim_C1_amended exC3cfg exC3idx 1 (str "A") exC3cand
    (by
      simp +decide [exC3idx, exC3rec, exC3cfg, exC3cand, buildIndex,
        processChain, ensureTopoNode, newTopoNode, addEventA, attachChildA, addImpactA,
        modifyNode, amodify, aset, alookup, setImpactEvent, layerFor, postOrderEvaluate,
        promoteA, Coverage, childTypeOf, ComputeScore, collectEventIDs, sortBy,
        insertSorted, strLeB, strLtB, buildPath, collectImpacts, GoVal.gtq, GoVal.ltq,
        GoVal.add, GoVal.mul, eventRefLe, mergeChildCounts, str, div_one,
        Int.cast_one, Nat.cast_one])

/-- C3.  The confidence formula has no impact term: replacing every
layer's impact weight by an arbitrary value leaves the scorer's output
unchanged, and every candidate's confidence equals
`clamp01(base + weights.coverage * coverage)` with the `Impact` score
component fixed at `0`. -/
theorem claim_C3_amended :
    (∀ (cfg : Config) (w : ℚ) (idx : Index) (fuel : Nat) (key : Str),
      postOrderEvaluate (withImpactWeight cfg w) idx fuel key
        = postOrderEvaluate cfg idx fuel key) ∧
    (∀ (cfg : Config) (idx : Index) (fuel : Nat) (key : Str) (c : Candidate),
      c ∈ (postOrderEvaluate cfg idx fuel key).1 →
      ∃ k n q, alookup idx k = some n ∧ c.node = n.node.ref ∧ Coverage n = GoVal.num q ∧
        c.confidence = GoVal.num (clamp01 ((layerFor cfg n.node.ref.type).weights.base
          + (layerFor cfg n.node.ref.type).weights.coverage * q)) ∧
        c.metrics.impact = GoVal.num 0) := by
  constructor
  · exact fun cfg w idx fuel key => postOrderEvaluate_withImpactWeight cfg w idx fuel key
  · intro cfg idx fuel key c h
    rcases mem_candidates_promoted h with ⟨k, n, hlk, hp⟩
    rcases promoteA_some_inv hp with ⟨hgt, rfl⟩
    rcases gtq_num hgt with ⟨q, hq, _⟩
    rcases computeScore_normalized_eq n (layerFor cfg n.node.ref.type).weights q hq
      with ⟨hn, hi⟩
    exact ⟨k, n, q, hlk, rfl, hq, hn, hi⟩

/-- C3 counterexample.  Under a configuration whose only positive weight
is `weights.impact = 1`, the single-node analysis (one event on one App
node, so the node's share of the batch is `1/1`) yields a candidate with
confidence `0`, while the spec's formula
`clamp01(base + coverage_w·coverage + impact_w·(|events_at_node|/|all_events|))`
gives `1`: the impact term never contributes. -/
theorem claim_C3_counterexample :
    (postOrderEvaluate exC3cfg exC3idx 1 (str "A")).1 = [exC3cand] ∧
    (layerFor exC3cfg (str "App")).weights.impact = 1 ∧
    (alookup exC3idx (str "A")).map (fun n => n.events.length) = some 1 ∧
    specConfidence (layerFor exC3cfg (str "App")).weights 1 1 1 = 1 ∧
    exC3cand.confidence = GoVal.num 0 ∧ GoVal.num (1 : ℚ) ≠ GoVal.num 0 := by
  refine ⟨?_, ?_, ?_, ?_, ?_, ?_⟩ <;>
    norm_num +decide [exC3idx, exC3rec, exC3cfg, exC3cand, buildIndex,
      processChain, ensureTopoNode, newTopoNode, addEventA, attachChildA, addImpactA,
      modifyNode, amodify, aset, alookup, setImpactEvent, layerFor, postOrderEvaluate,
      promoteA, Coverage, childTypeOf, ComputeScore, collectEventIDs, sortBy,
      insertSorted, strLeB, strLtB, buildPath, collectImpacts, GoVal.gtq, GoVal.ltq,
      GoVal.add, GoVal.mul, eventRefLe, mergeChildCounts, str, specConfidence, clamp01]

/-- C3 witness: both halves of the corrected confidence description
instantiated on the concrete single-node analysis. -/
theorem claim_C3_witness :
    (postOrderEvaluate (withImpactWeight exC3cfg 7) exC3idx 1 (str "A")
        = postOrderEvaluate exC3cfg exC3idx 1 (str "A")) ∧
    (∃ k n q, alookup exC3idx k = some n ∧ exC3cand.node = n.node.ref ∧
      Coverage n = GoVal.num q ∧
      exC3cand.confidence = GoVal.num (clamp01 ((layerFor exC3cfg n.node.ref.type).weights.base
        + (layerFor exC3cfg n.node.ref.type).weights.coverage * q)) ∧
      exC3cand.metrics.impact = GoVal.num 0) :=
  ⟨claim_C3_amended.1 exC3cfg 7 exC3idx 1 (str "A"),
   claim_C3_amended.2 exC3cfg exC3idx 1 (str "A") exC3cand
    (by
      simp +decide [exC3idx, exC3rec, exC3cfg, exC3cand, buildIndex,
        processChain, ensureTopoNode, newTopoNode, addEventA, attachChildA, addImpactA,
        modifyNode, amodify, aset, alookup, setImpactEvent, layerFor, postOrderEvaluate,
        promoteA, Coverage, childTypeOf, ComputeScore, collectEventIDs, sortBy,
        insertSorted, strLeB, strLtB, buildPath, collectImpacts, GoVal.gtq, GoVal.ltq,
        GoVal.add, GoVal.mul, eventRefLe, mergeChildCounts, str, div_one,
        Int.cast_one, Nat.cast_one])⟩

/-- A successful lookup produces a binding of the list. -/
theorem alookup_mem {α : Type} {m : List (Str × α)} {k : Str} {v : α}
    (h : alookup m k = some v) : (k, v) ∈ m := by
  induction m with
  | nil => simp [alookup] at h
  | cons p t ih =>
    obtain ⟨pk, pv⟩ := p
    by_cases h1 : pk = k
    · subst h1
      simp [alookup] at h
      simp [h]
    · simp only [alookup, h1, if_false] at h
      simp [ih h]

/-- C4.  Coverage as computed by the code: a node with no children and
no impacts has coverage `1.0` unconditionally — whatever its node type,
its known fan-out and its events — and every other node (with the
invariant that an impact-free node is childless, and non-negative
baseline counts) follows the spec formula
`min(1, |impacted_children| / max(1, baseline_count_for_dominant_type))`. -/
theorem claim_C4_amended (n : TopoNodeA)
    (h2 : ∀ p ∈ n.node.childCounts, 0 ≤ p.2)
    (h3 : n.impacts = [] → n.children = []) :
    Coverage n = GoVal.num
      (if n.children = [] ∧ n.impacts = [] then 1 else specCoverage n) := by
  by_cases hleaf : n.children = [] ∧ n.impacts = []
  · simp [Coverage, hleaf]
  · have himp : n.impacts ≠ [] := by
      intro h
      exact hleaf ⟨h3 h, h⟩
    have hlen : 1 ≤ (n.impacts.length : ℚ) := by
      have : 0 < n.impacts.length := List.length_pos.mpr himp
      exact_mod_cast this
    have htotal : 0 ≤ ((alookup n.node.childCounts (childTypeOf n.impacts)).getD 0) := by
      cases h : alookup n.node.childCounts (childTypeOf n.impacts) with
      | none => simp
      | some v =>
        have := h2 _ (alookup_mem h)
        simpa using this
    simp only [Coverage, hleaf, if_false, specCoverage]
    by_cases hz : ((alookup n.node.childCounts (childTypeOf n.impacts)).getD 0) = 0
    · rw [if_pos hz]
      rw [if_neg (by simpa using himp)]
      congr 1
      rw [hz]
      have hcast : (((0 : Int)) : ℚ) = 0 := by norm_num
      rw [hcast, max_eq_left (by norm_num : (0 : ℚ) ≤ 1), div_one]
      exact (min_eq_left hlen).symm
    · rw [if_neg hz]
      have hpos : 0 < ((alookup n.node.childCounts (childTypeOf n.impacts)).getD 0) :=
        lt_of_le_of_ne htotal (Ne.symm hz)
      have h1le : (1 : ℚ) ≤ (((alookup n.node.childCounts (childTypeOf n.impacts)).getD 0
          : Int) : ℚ) := by
        have : (1 : Int) ≤ (alookup n.node.childCounts (childTypeOf n.impacts)).getD 0 := hpos
        exact_mod_cast this
      congr 1
      rw [max_eq_right h1le]
      rcases le_or_lt ((n.impacts.length : ℚ)
          / (((alookup n.node.childCounts (childTypeOf n.impacts)).getD 0 : Int) : ℚ)) 1
        with hle | hgt
      · rw [if_neg (not_lt.mpr hle), min_eq_right hle]
      · rw [if_pos hgt, min_eq_left (le_of_lt hgt)]

/-- C4 counterexample.  The tree of a single host event is one
HostMachine leaf with a known fan-out of three VMs and one event.  The
code gives it coverage `1.0`, the spec formula
`min(1, |impacted|/max(1, 3))` gives `0`, and the node is not a
VirtualMachine-level leaf without known fan-out: both the formula and
the leaf exception of the claim fail on it. -/
theorem claim_C4_counterexample :
    (alookup exC4idx (str "H")).map Coverage = some (GoVal.num 1) ∧
    (alookup exC4idx (str "H")).map specCoverage = some 0 ∧
    (alookup exC4idx (str "H")).map (fun n => n.node.ref.type) = some (str "HostMachine") ∧
    (alookup exC4idx (str "H")).map (fun n => alookup n.node.childCounts
        (str "VirtualMachine")) = some (some 3) ∧
    (0 : ℚ) ≠ 1 := by
  refine ⟨?_, ?_, ?_, ?_, by norm_num⟩ <;>
    norm_num +decide [exC4idx, exC4rec, exC4node, buildIndex, processChain, ensureTopoNode,
      newTopoNode, addEventA, attachChildA, addImpactA, modifyNode, amodify, aset, alookup,
      setImpactEvent, Coverage, childTypeOf, specCoverage, mergeChildCounts, str]

/-- C4 witness: the coverage description instantiated on the concrete
one-impact HostMachine node. -/
theorem claim_C4_witness :
    Coverage exC4wNode = GoVal.num
      (if exC4wNode.children = [] ∧ exC4wNode.impacts = [] then 1
       else specCoverage exC4wNode) :=
  claim_C4_amended exC4wNode (by decide) (by decide)

/-- Keys absent from the incoming counts are untouched by the merge. -/
theorem mergeChildCounts_lookup_absent (incoming : List (NodeType × Int)) :
    ∀ (stored : List (NodeType × Int)) (t : NodeType),
      (∀ p ∈ incoming, p.1 ≠ t) →
      alookup (mergeChildCounts stored incoming) t = alookup stored t := by
  induction incoming with
  | nil => intro stored t _; simp [mergeChildCounts]
  | cons q rest ih =>
    intro stored t habs
    obtain ⟨qk, qv⟩ := q
    have hq : qk ≠ t := habs (qk, qv) (by simp)
    have hrest : ∀ p ∈ rest, p.1 ≠ t := fun p hp => habs p (by simp [hp])
    show alookup (mergeChildCounts (if qv ≤ 0 then stored else aset stored qk qv) rest) t
      = alookup stored t
    rw [ih _ t hrest]
    by_cases hqv : qv ≤ 0
    · rw [if_pos hqv]
    · rw [if_neg hqv, alookup_aset, if_neg hq]

/-- Merge lookup of `ensureTopoNode` on a repeated key: a positive
incoming count always replaces the stored one (even when smaller), a
non-positive incoming count never does. -/
theorem mergeChildCounts_lookup (incoming : List (NodeType × Int)) :
    ∀ (stored : List (NodeType × Int)) (t : NodeType) (v : Int),
      (incoming.map Prod.fst).Nodup → alookup incoming t = some v →
      alookup (mergeChildCounts stored incoming) t =
        if 0 < v then some v else alookup stored t := by
  induction incoming with
  | nil => intro stored t v _ hv; simp [alookup] at hv
  | cons p rest ih =>
    intro stored t v hnodup hv
    obtain ⟨pk, pv⟩ := p
    have hnodup' : (rest.map Prod.fst).Nodup := by
      simpa using (List.nodup_cons.mp (by simpa using hnodup)).2
    show alookup (mergeChildCounts (if pv ≤ 0 then stored else aset stored pk pv) rest) t
      = if 0 < v then some v else alookup stored t
    by_cases h1 : pk = t
    · subst h1
      simp only [alookup, if_pos rfl] at hv
      injection hv with hv
      subst hv
      have hnotmem : pk ∉ rest.map Prod.fst :=
        (List.nodup_cons.mp (by simpa using hnodup)).1
      have habs : ∀ p ∈ rest, p.1 ≠ pk := by
        intro p hp heq
        exact hnotmem (List.mem_map.mpr ⟨p, hp, heq⟩)
      rw [mergeChildCounts_lookup_absent rest _ pk habs]
      by_cases hpv : pv ≤ 0
      · rw [if_pos hpv, if_neg (not_lt.mpr hpv)]
      · rw [if_neg hpv, if_pos (lt_of_not_ge hpv), alookup_aset, if_pos rfl]
    · have hv' : alookup rest t = some v := by
        simpa [alookup, h1] using hv
      rw [ih _ t v hnodup' hv']
      by_cases hpv : pv ≤ 0
      · rw [if_pos hpv]
      · rw [if_neg hpv, alookup_aset, if_neg h1]

/-- C6.  Child-count merging on a repeated topology observation is a
plain positive overwrite: interning an already-seen key keeps the stored
record but, for every child type the new observation carries, a positive
incoming count replaces the stored count even when it is smaller, while
a non-positive incoming count leaves the stored count in place. -/
theorem claim_C6_amended :
    (∀ (idx : Index) (node : Node) (ex : TopoNodeA),
      alookup idx node.ref.key = some ex →
      alookup (ensureTopoNode idx node).1 node.ref.key
        = some { ex with node := { ex.node with
            childCounts := mergeChildCounts ex.node.childCounts node.childCounts } }) ∧
    (∀ (stored incoming : List (NodeType × Int)) (t : NodeType) (v : Int),
      (incoming.map Prod.fst).Nodup → alookup incoming t = some v →
      alookup (mergeChildCounts stored incoming) t =
        if 0 < v then some v else alookup stored t) := by
  constructor
  · intro idx node ex h
    simp only [ensureTopoNode, h]
    rw [alookup_modifyNode, if_pos rfl, h]
    rfl
  · intro stored incoming t v hnodup hv
    exact mergeChildCounts_lookup incoming stored t v hnodup hv

/-- C6 counterexample.  Interning key `N` with a baseline of five VMs
and then re-interning it with a baseline of three VMs shrinks the
recorded positive count from `5` to `3`: positive counts do not only
replace zero counts, they also shrink known counts. -/
theorem claim_C6_counterexample :
    (alookup (ensureTopoNode (ensureTopoNode [] exC6nodeA).1 exC6nodeB).1 (str "N")).map
        (fun n => alookup n.node.childCounts (str "VirtualMachine")) = some (some 3) ∧
    (3 : Int) < 5 := by
  refine ⟨?_, by norm_num⟩
  simp +decide [ensureTopoNode, exC6nodeA, exC6nodeB, newTopoNode, modifyNode, amodify,
    alookup, aset, mergeChildCounts, str]

/-- C6 witness: the merge description instantiated on the concrete
five-then-three observation. -/
theorem claim_C6_witness :
    alookup (mergeChildCounts [(str "VirtualMachine", 5)] [(str "VirtualMachine", 3)])
        (str "VirtualMachine") =
      if 0 < (3 : Int) then some 3 else alookup [(str "VirtualMachine", 5)]
        (str "VirtualMachine") :=
  claim_C6_amended.2 [(str "VirtualMachine", 5)] [(str "VirtualMachine", 3)]
    (str "VirtualMachine") 3 (by decide) (by decide)

/-! ## Order dependence of `evaluate` (claim C5) -/

theorem foldl_append_eq_flatten {γ δ : Type} (g : γ → List δ) (l : List γ) :
    l.foldl (fun a k => a ++ g k) [] = (l.map g).flatten := by
  induction l with
  | nil => simp
  | cons x xs ih =>
    simp only [List.foldl_cons, List.map_cons, List.flatten_cons]
    rw [foldl_append_acc g xs ([] ++ g x), ih]
    simp

/-- Decomposition of the candidate half of `evaluate`. -/
theorem evaluate_fst_eq (cfg : Config) (idx : Index) (order : List Str) :
    (evaluate cfg idx order).1
      = sortBy candLe
          ((order.map (fun k => (postOrderEvaluate cfg idx idx.length k).1)).flatten) := by
  simp only [evaluate]
  rw [foldl_pair_acc (fun k => postOrderEvaluate cfg idx idx.length k) order ([], [])]
  rw [foldl_append_eq_flatten (fun k => (postOrderEvaluate cfg idx idx.length k).1) order]
  simp

/-- Decomposition of the path half of `evaluate`. -/
theorem evaluate_snd_eq (cfg : Config) (idx : Index) (order : List Str) :
    (evaluate cfg idx order).2
      = sortBy pathLe
          ((order.map (fun k => (postOrderEvaluate cfg idx idx.length k).2)).flatten) := by
  simp only [evaluate]
  rw [foldl_pair_acc (fun k => postOrderEvaluate cfg idx idx.length k) order ([], [])]
  rw [foldl_append_eq_flatten (fun k => (postOrderEvaluate cfg idx idx.length k).2) order]
  simp

/-- Every candidate `evaluate` outputs has a numeric (non-`NaN`)
confidence. -/
theorem evaluate_confidence_num {cfg : Config} {idx : Index} {order : List Str}
    {c : Candidate} (h : c ∈ (evaluate cfg idx order).1) :
    ∃ q : ℚ, c.confidence = GoVal.num q := by
  rw [evaluate_fst_eq] at h
  rcases List.mem_flatten.mp (mem_sortBy.mp h) with ⟨l, hl, hc⟩
  rcases List.mem_map.mp hl with ⟨k, _, rfl⟩
  rcases mem_candidates_promoted hc with ⟨k', n, _, hp⟩
  rcases promoteA_some_inv hp with ⟨hgt, rfl⟩
  rcases gtq_num hgt with ⟨q, hq, _⟩
  rcases computeScore_normalized_eq n (layerFor cfg n.node.ref.type).weights q hq
    with ⟨hn, _⟩
  exact ⟨_, hn⟩

theorem candLe_total (a b : Candidate) : candLe a b = true ∨ candLe b a = true := by
  unfold candLe
  cases ha : a.confidence with
  | nan => cases b.confidence <;> simp [GoVal.gt]
  | num qa =>
    cases hb : b.confidence with
    | nan => simp [GoVal.gt]
    | num qb =>
      simp only [GoVal.gt, Bool.not_eq_true', decide_eq_false_iff_not, not_lt]
      rcases le_total qa qb with h | h
      · right; simpa using h
      · left; simpa using h

theorem candLe_trans_of_num {a b c : Candidate}
    (ha : ∃ q, a.confidence = GoVal.num q) (hb : ∃ q, b.confidence = GoVal.num q)
    (hc : ∃ q, c.confidence = GoVal.num q)
    (hab : candLe a b = true) (hbc : candLe b c = true) : candLe a c = true := by
  rcases ha with ⟨qa, ha⟩
  rcases hb with ⟨qb, hb⟩
  rcases hc with ⟨qc, hc⟩
  simp only [candLe, ha, hb, hc, GoVal.gt, Bool.not_eq_true', decide_eq_false_iff_not,
    not_lt] at hab hbc ⊢
  exact hbc.trans hab

theorem gt_conf_asymm (a b : Candidate)
    (h1 : GoVal.gt a.confidence b.confidence = true)
    (h2 : GoVal.gt b.confidence a.confidence = true) : False := by
  cases ha : a.confidence with
  | nan => simp [ha, GoVal.gt] at h1
  | num qa =>
    cases hb : b.confidence with
    | nan => simp [hb, GoVal.gt] at h1
    | num qb =>
      simp only [ha, hb, GoVal.gt, decide_eq_true_eq] at h1 h2
      exact absurd h1 (not_lt.mpr (le_of_lt h2))

theorem pathLe_total (a b : AlarmPath) : pathLe a b = true ∨ pathLe b a = true :=
  strLeB_total a.candidate.key b.candidate.key

theorem pathLe_trans {a b c : AlarmPath} (hab : pathLe a b = true)
    (hbc : pathLe b c = true) : pathLe a c = true :=
  strLeB_trans hab hbc

/-- C5.  Determinism up to candidate ties: for any two iteration orders
of the Stage-B roots that are permutations of one another, `evaluate`
produces permutations of the same candidate set and of the same path
set; the outputs are moreover equal whenever all candidate confidences
are pairwise distinct (for the candidate list) respectively all path
keys are pairwise distinct (for the path list).  With equal-confidence
candidates the relative order can differ — see the counterexample. -/
theorem claim_C5_amended (cfg : Config) (idx : Index) (order1 order2 : List Str)
    (hperm : order1.Perm order2) :
    ((evaluate cfg idx order1).1.Perm ((evaluate cfg idx order2).1)) ∧
    ((evaluate cfg idx order1).2.Perm ((evaluate cfg idx order2).2)) ∧
    (((evaluate cfg idx order1).1.Pairwise (fun a b => a.confidence ≠ b.confidence)) →
      (evaluate cfg idx order1).1 = (evaluate cfg idx order2).1) ∧
    (((evaluate cfg idx order1).2.Pairwise
        (fun p q => p.candidate.key ≠ q.candidate.key)) →
      (evaluate cfg idx order1).2 = (evaluate cfg idx order2).2) := by
  have hpermC : (evaluate cfg idx order1).1.Perm ((evaluate cfg idx order2).1) := by
    rw [evaluate_fst_eq, evaluate_fst_eq]
    refine (sortBy_perm _ _).trans (List.Perm.trans ?_ (sortBy_perm _ _).symm)
    exact (hperm.map (fun k => (postOrderEvaluate cfg idx idx.length k).1)).flatten
  have hpermP : (evaluate cfg idx order1).2.Perm ((evaluate cfg idx order2).2) := by
    rw [evaluate_snd_eq, evaluate_snd_eq]
    refine (sortBy_perm _ _).trans (List.Perm.trans ?_ (sortBy_perm _ _).symm)
    exact (hperm.map (fun k => (postOrderEvaluate cfg idx idx.length k).2)).flatten
  refine ⟨hpermC, hpermP, ?_, ?_⟩
  · intro hne
    have hne2 : (evaluate cfg idx order2).1.Pairwise
        (fun a b => a.confidence ≠ b.confidence) :=
      (List.Perm.pairwise_iff (fun h => h.symm) hpermC).mp hne
    have hsorted : ∀ (o : List Str), ((evaluate cfg idx o).1).Pairwise
        (fun a b => candLe a b = true) := by
      intro o
      rw [evaluate_fst_eq]
      refine sortBy_pairwise (fun a _ b _ => candLe_total a b) ?_
      intro a hma b hmb c hmc hab hbc
      have hnum : ∀ x ∈ ((o.map
          (fun k => (postOrderEvaluate cfg idx idx.length k).1)).flatten),
          ∃ q, x.confidence = GoVal.num q := by
        intro x hx
        have : x ∈ (evaluate cfg idx o).1 := by
          rw [evaluate_fst_eq]
          exact mem_sortBy.mpr hx
        exact evaluate_confidence_num this
      exact candLe_trans_of_num (hnum a hma) (hnum b hmb) (hnum c hmc) hab hbc
    have hstrict : ∀ (o : List Str),
        ((evaluate cfg idx o).1).Pairwise (fun a b => a.confidence ≠ b.confidence) →
        ((evaluate cfg idx o).1).Pairwise
          (fun a b => GoVal.gt a.confidence b.confidence = true) := by
      intro o hneo
      have hcomb := (hsorted o).and hneo
      refine hcomb.imp_of_mem ?_
      intro a b hma hmb hab
      rcases @evaluate_confidence_num cfg idx o _ hma with ⟨qa, ha⟩
      rcases @evaluate_confidence_num cfg idx o _ hmb with ⟨qb, hb⟩
      rcases hab with ⟨hle, hneq⟩
      simp only [candLe, ha, hb, GoVal.gt, Bool.not_eq_true', decide_eq_false_iff_not,
        not_lt] at hle ⊢
      rcases lt_or_eq_of_le hle with h | h
      · simpa using h
      · exact absurd (by rw [ha, hb, h]) hneq
    exact eq_of_perm_of_strict_sorted gt_conf_asymm hpermC (hstrict order1 hne)
      (hstrict order2 hne2)
  · intro hne
    have hne2 : (evaluate cfg idx order2).2.Pairwise
        (fun p q => p.candidate.key ≠ q.candidate.key) :=
      (List.Perm.pairwise_iff (fun h => h.symm) hpermP).mp hne
    have hsorted : ∀ (o : List Str), ((evaluate cfg idx o).2).Pairwise
        (fun a b => pathLe a b = true) := by
      intro o
      rw [evaluate_snd_eq]
      exact sortBy_pairwise (fun a _ b _ => pathLe_total a b)
        (fun a _ b _ c _ hab hbc => pathLe_trans hab hbc)
    have hstrict : ∀ (o : List Str),
        ((evaluate cfg idx o).2).Pairwise (fun p q => p.candidate.key ≠ q.candidate.key) →
        ((evaluate cfg idx o).2).Pairwise
          (fun p q => strLtB p.candidate.key q.candidate.key = true) := by
      intro o hneo
      refine ((hsorted o).and hneo).imp ?_
      intro p q hpq
      rcases hpq with ⟨hle, hneq⟩
      simp only [pathLe, strLeB, Bool.not_eq_true'] at hle
      by_cases h : strLtB p.candidate.key q.candidate.key = true
      · exact h
      · exact absurd (strLtB_conn (eq_false_of_ne_true h) hle) hneq
    have hasymm : ∀ p q : AlarmPath, strLtB p.candidate.key q.candidate.key = true →
        strLtB q.candidate.key p.candidate.key = true → False := by
      intro p q h1 h2
      have := strLtB_asymm h1
      simp [this] at h2
    exact eq_of_perm_of_strict_sorted hasymm hpermP (hstrict order1 hne)
      (hstrict order2 hne2)

/-- C5 counterexample.  The tree of two single-node chains `A1`, `A2`
has two roots whose candidates share the same confidence.  Iterating
the pruned root map in the two possible orders — both permutations of
the same root set — yields byte-different outputs: the candidates appear
in iteration order.  `Analyze`'s result is therefore not independent of
map iteration order when confidences tie. -/
theorem claim_C5_counterexample :
    rootKeys exC5idx = [str "A1", str "A2"] ∧
    List.Perm [str "A2", str "A1"] (rootKeys exC5idx) ∧
    (evaluate exC3cfg exC5idx [str "A1", str "A2"]).1.map (fun c => c.node.key)
      = [str "A1", str "A2"] ∧
    (evaluate exC3cfg exC5idx [str "A2", str "A1"]).1.map (fun c => c.node.key)
      = [str "A2", str "A1"] ∧
    (evaluate exC3cfg exC5idx [str "A1", str "A2"]).1
      ≠ (evaluate exC3cfg exC5idx [str "A2", str "A1"]).1 := by
  have h1 : rootKeys exC5idx = [str "A1", str "A2"] := by
    simp +decide [exC5idx, exC5recA, exC5recB, buildIndex, processChain, ensureTopoNode,
      newTopoNode, addEventA, attachChildA, addImpactA, modifyNode, amodify, aset, alookup,
      setImpactEvent, rootKeys, mergeChildCounts, str]
  have h3 : (evaluate exC3cfg exC5idx [str "A1", str "A2"]).1.map (fun c => c.node.key)
      = [str "A1", str "A2"] := by
    simp +decide [exC5idx, exC5recA, exC5recB, exC3cfg, buildIndex, processChain,
      ensureTopoNode, newTopoNode, addEventA, attachChildA, addImpactA, modifyNode,
      amodify, aset, alookup, setImpactEvent, evaluate, layerFor, postOrderEvaluate,
      promoteA, Coverage, childTypeOf, ComputeScore, collectEventIDs, sortBy, insertSorted,
      strLeB, strLtB, buildPath, collectImpacts, GoVal.gtq, GoVal.ltq, GoVal.gt, GoVal.add,
      GoVal.mul, candLe, pathLe, eventRefLe, mergeChildCounts, str]
  have h4 : (evaluate exC3cfg exC5idx [str "A2", str "A1"]).1.map (fun c => c.node.key)
      = [str "A2", str "A1"] := by
    simp +decide [exC5idx, exC5recA, exC5recB, exC3cfg, buildIndex, processChain,
      ensureTopoNode, newTopoNode, addEventA, attachChildA, addImpactA, modifyNode,
      amodify, aset, alookup, setImpactEvent, evaluate, layerFor, postOrderEvaluate,
      promoteA, Coverage, childTypeOf, ComputeScore, collectEventIDs, sortBy, insertSorted,
      strLeB, strLtB, buildPath, collectImpacts, GoVal.gtq, GoVal.ltq, GoVal.gt, GoVal.add,
      GoVal.mul, candLe, pathLe, eventRefLe, mergeChildCounts, str]
  refine ⟨h1, by rw [h1]; exact List.Perm.swap _ _ _, h3, h4, ?_⟩
  intro heq
  rw [heq] at h3
  rw [h3] at h4
  exact absurd h4 (by decide)

/-- C5 witness: the tie-tolerant determinism description instantiated on
the two-root tree with both iteration orders; the path keys are pairwise
distinct, so the path lists agree exactly. -/
theorem claim_C5_witness :
    ((evaluate exC3cfg exC5idx [str "A1", str "A2"]).1.Perm
      ((evaluate exC3cfg exC5idx [str "A2", str "A1"]).1)) ∧
    ((evaluate exC3cfg exC5idx [str "A1", str "A2"]).2
      = (evaluate exC3cfg exC5idx [str "A2", str "A1"]).2) := by
  have h := claim_C5_amended exC3cfg exC5idx [str "A1", str "A2"] [str "A2", str "A1"]
    (List.Perm.swap _ _ _)
  refine ⟨h.1, h.2.2.2 ?_⟩
  have hkeys : (evaluate exC3cfg exC5idx [str "A1", str "A2"]).2.map
      (fun p => p.candidate.key) = [str "A1", str "A2"] := by
    simp +decide [exC5idx, exC5recA, exC5recB, exC3cfg, buildIndex, processChain,
      ensureTopoNode, newTopoNode, addEventA, attachChildA, addImpactA, modifyNode,
      amodify, aset, alookup, setImpactEvent, evaluate, layerFor, postOrderEvaluate,
      promoteA, Coverage, childTypeOf, ComputeScore, collectEventIDs, sortBy, insertSorted,
      strLeB, strLtB, buildPath, collectImpacts, GoVal.gtq, GoVal.ltq, GoVal.gt, GoVal.add,
      GoVal.mul, candLe, pathLe, eventRefLe, mergeChildCounts, str]
  have hpne : List.Pairwise (fun a b => a ≠ b)
      ((evaluate exC3cfg exC5idx [str "A1", str "A2"]).2.map (fun p => p.candidate.key)) := by
    rw [hkeys]
    decide
  exact List.pairwise_map.mp hpne

/-! ## Stage A ordering and emission (claim C8) -/

theorem outageNodeLe_total (a b : AppOutageNode) :
    outageNodeLe a b = true ∨ outageNodeLe b a = true := by
  unfold outageNodeLe
  by_cases h : a.serverType = b.serverType
  · simp only [h, if_pos rfl, if_pos h.symm]
    rw [h] at *
    exact strLeB_total a.ip b.ip
  · have h' : ¬(b.serverType = a.serverType) := fun hh => h hh.symm
    simp only [h, h', if_neg, if_false]
    exact strLeB_total a.serverType b.serverType

theorem outageNodeLe_trans {a b c : AppOutageNode} (hab : outageNodeLe a b = true)
    (hbc : outageNodeLe b c = true) : outageNodeLe a c = true := by
  unfold outageNodeLe at *
  by_cases h1 : a.serverType = b.serverType
  · by_cases h2 : b.serverType = c.serverType
    · have h3 : a.serverType = c.serverType := h1.trans h2
      rw [if_pos h1] at hab
      rw [if_pos h2] at hbc
      rw [if_pos h3]
      exact strLeB_trans hab hbc
    · have h3 : ¬(a.serverType = c.serverType) := fun hh => h2 (h1.symm.trans hh)
      rw [if_pos h1] at hab
      rw [if_neg h2] at hbc
      rw [if_neg h3, h1]
      exact hbc
  · by_cases h2 : b.serverType = c.serverType
    · have h3 : ¬(a.serverType = c.serverType) := fun hh => h1 (hh.trans h2.symm)
      rw [if_neg h1] at hab
      rw [if_neg h3, ← h2]
      exact hab
    · rw [if_neg h1] at hab
      rw [if_neg h2] at hbc
      by_cases h3 : a.serverType = c.serverType
      · exfalso
        rw [strLeB, Bool.not_eq_true'] at hab hbc
        have hlt1 : strLtB a.serverType b.serverType = true := by
          rcases h : strLtB a.serverType b.serverType with _ | _
          · exact absurd (strLtB_conn h hab) h1
          · rfl
        have hlt2 : strLtB b.serverType c.serverType = true := by
          rcases h : strLtB b.serverType c.serverType with _ | _
          · exact absurd (strLtB_conn h hbc) h2
          · rfl
        have hcc := strLtB_trans hlt1 hlt2
        rw [h3, strLtB_irrefl] at hcc
        exact Bool.false_ne_true hcc
      · rw [if_neg h3]
        exact strLeB_trans hab hbc

theorem outageLe_total (a b : AppOutage) : outageLe a b = true ∨ outageLe b a = true := by
  unfold outageLe
  by_cases h1 : a.coverage = b.coverage
  · simp only [h1, if_pos rfl, if_pos h1.symm]
    by_cases h2 : a.appName = b.appName
    · simp only [h2, if_pos rfl, if_pos h2.symm]
      exact strLeB_total a.datacenter b.datacenter
    · have h2' : ¬(b.appName = a.appName) := fun hh => h2 hh.symm
      simp only [h2, h2', if_neg, if_false]
      exact strLeB_total a.appName b.appName
  · have h1' : ¬(b.coverage = a.coverage) := fun hh => h1 hh.symm
    simp only [h1, h1', if_neg, if_false]
    rcases le_total a.coverage b.coverage with h | h
    · right; simpa using h
    · left; simpa using h

theorem outageLe_trans {a b c : AppOutage} (hab : outageLe a b = true)
    (hbc : outageLe b c = true) : outageLe a c = true := by
  unfold outageLe at *
  by_cases h1 : a.coverage = b.coverage
  · by_cases h2 : b.coverage = c.coverage
    · have h3 : a.coverage = c.coverage := h1.trans h2
      rw [if_pos h1] at hab
      rw [if_pos h2] at hbc
      rw [if_pos h3]
      by_cases g1 : a.appName = b.appName
      · by_cases g2 : b.appName = c.appName
        · have g3 : a.appName = c.appName := g1.trans g2
          rw [if_pos g1] at hab
          rw [if_pos g2] at hbc
          rw [if_pos g3]
          exact strLeB_trans hab hbc
        · have g3 : ¬(a.appName = c.appName) := fun hh => g2 (g1.symm.trans hh)
          rw [if_neg g2] at hbc
          rw [if_neg g3, g1]
          exact hbc
      · by_cases g2 : b.appName = c.appName
        · have g3 : ¬(a.appName = c.appName) := fun hh => g1 (hh.trans g2.symm)
          rw [if_neg g1] at hab
          rw [if_neg g3, ← g2]
          exact hab
        · rw [if_neg g1] at hab
          rw [if_neg g2] at hbc
          by_cases g3 : a.appName = c.appName
          · exfalso
            rw [strLeB, Bool.not_eq_true'] at hab hbc
            have hlt1 : strLtB a.appName b.appName = true := by
              rcases h : strLtB a.appName b.appName with _ | _
              · exact absurd (strLtB_conn h hab) g1
              · rfl
            have hlt2 : strLtB b.appName c.appName = true := by
              rcases h : strLtB b.appName c.appName with _ | _
              · exact absurd (strLtB_conn h hbc) g2
              · rfl
            have hcc := strLtB_trans hlt1 hlt2
            rw [g3, strLtB_irrefl] at hcc
            exact Bool.false_ne_true hcc
          · rw [if_neg g3]
            exact strLeB_trans hab hbc
    · have h3 : ¬(a.coverage = c.coverage) := by
        intro hh
        rw [if_pos h1] at hab
        rw [if_neg h2] at hbc
        exact h2 (h1.symm.trans hh)
      rw [if_neg h2] at hbc
      rw [if_neg h3, h1]
      exact hbc
  · by_cases h2 : b.coverage = c.coverage
    · have h3 : ¬(a.coverage = c.coverage) := fun hh => h1 (hh.trans h2.symm)
      rw [if_neg h1] at hab
      rw [if_neg h3, ← h2]
      exact hab
    · rw [if_neg h1] at hab
      rw [if_neg h2] at hbc
      have hab' : b.coverage ≤ a.coverage := by simpa using hab
      have hbc' : c.coverage ≤ b.coverage := by simpa using hbc
      by_cases h3 : a.coverage = c.coverage
      · exfalso
        have hac : a.coverage ≤ b.coverage := by
          rw [h3]
          exact hbc'
        exact h1 (le_antisymm hac hab')
      · rw [if_neg h3]
        simpa using hbc'.trans hab'

/-- Inversion of the per-group Stage-A emission. -/
theorem emitGroup_some_inv {thr : ℚ} {listApp : Str → Str → Except Str Int}
    {grp : AppGroup} {o : AppOutage} (h : emitGroup thr listApp grp = some o) :
    ∃ total : Int, listApp grp.appName grp.idc = Except.ok total ∧ 0 < total ∧
      collapseAlarmedNodes grp.events ≠ [] ∧
      thr ≤ ((collapseAlarmedNodes grp.events).length : ℚ) / (total : ℚ) ∧
      o = { appName := grp.appName, datacenter := grp.idc, totalNodes := total,
            alarmedNodes := (collapseAlarmedNodes grp.events).length,
            coverage := ((collapseAlarmedNodes grp.events).length : ℚ) / (total : ℚ),
            threshold := thr,
            affectedNodes := sortBy outageNodeLe
              ((collapseAlarmedNodes grp.events).map (·.2)) } := by
  simp only [emitGroup] at h
  by_cases h0 : grp.events = []
  · rw [if_pos h0] at h
    exact absurd h (by simp)
  rw [if_neg h0] at h
  cases hla : listApp grp.appName grp.idc with
  | error e =>
    rw [hla] at h
    exact absurd h (by simp)
  | ok total =>
    rw [hla] at h
    simp only [] at h
    by_cases h1 : total ≤ 0
    · rw [if_pos h1] at h
      exact absurd h (by simp)
    rw [if_neg h1] at h
    by_cases h2 : collapseAlarmedNodes grp.events = []
    · rw [if_pos h2] at h
      exact absurd h (by simp)
    rw [if_neg h2] at h
    by_cases h3 : ((collapseAlarmedNodes grp.events).length : ℚ) / (total : ℚ) < thr
    · rw [if_pos h3] at h
      exact absurd h (by simp)
    rw [if_neg h3] at h
    injection h with h
    exact ⟨total, rfl, lt_of_not_ge h1, h2, not_lt.mp h3, h.symm⟩

/-- A non-empty collapsed set comes from a non-empty event group. -/
theorem collapse_ne_nil_events_ne_nil {events : List AlarmEvent}
    (h : collapseAlarmedNodes events ≠ []) : events ≠ [] := by
  intro h0
  subst h0
  simp [collapseAlarmedNodes] at h

/-- Forward construction of the per-group Stage-A emission. -/
theorem emitGroup_isSome {thr : ℚ} {listApp : Str → Str → Except Str Int}
    {grp : AppGroup} {total : Int} (hla : listApp grp.appName grp.idc = Except.ok total)
    (hpos : 0 < total) (hne : collapseAlarmedNodes grp.events ≠ [])
    (hcov : thr ≤ ((collapseAlarmedNodes grp.events).length : ℚ) / (total : ℚ)) :
    (emitGroup thr listApp grp).isSome := by
  simp only [emitGroup]
  rw [if_neg (collapse_ne_nil_events_ne_nil hne), hla]
  simp only []
  rw [if_neg (not_le.mpr hpos), if_neg hne, if_neg (not_lt.mpr hcov)]
  simp

/-- C8.  Stage A: the outage list is exactly the per-group emissions of
`emitGroup`, sorted by (coverage desc, app asc, datacenter asc); every
emitted outage carries sorted affected nodes, the effective threshold
(0.6 when the configured value is not positive), a positive total, a
non-empty affected set and `threshold ≤ coverage = alarmed/total`; and a
group with a positive oracle total and non-empty collapsed set is
emitted iff its coverage reaches the threshold. -/
theorem claim_C8 (cfg : Config) (listApp : Str → Str → Except Str Int)
    (events : List AlarmEvent) :
    ((computeAppOutages cfg listApp events).Perm
      ((buildGroups events).filterMap
        (fun p => emitGroup (effectiveThreshold cfg) listApp p.2))) ∧
    ((computeAppOutages cfg listApp events).Pairwise (fun a b => outageLe a b = true)) ∧
    (∀ o ∈ computeAppOutages cfg listApp events,
      o.affectedNodes.Pairwise (fun a b => outageNodeLe a b = true) ∧
      o.threshold = effectiveThreshold cfg ∧ 0 < o.totalNodes ∧
      o.affectedNodes ≠ [] ∧ o.threshold ≤ o.coverage ∧
      o.coverage = (o.alarmedNodes : ℚ) / (o.totalNodes : ℚ)) ∧
    (∀ p ∈ buildGroups events, ∀ total : Int,
      listApp p.2.appName p.2.idc = Except.ok total → 0 < total →
      collapseAlarmedNodes p.2.events ≠ [] →
      ((emitGroup (effectiveThreshold cfg) listApp p.2).isSome ↔
        effectiveThreshold cfg
          ≤ ((collapseAlarmedNodes p.2.events).length : ℚ) / (total : ℚ))) := by
  have hdef : computeAppOutages cfg listApp events
      = sortBy outageLe ((buildGroups events).filterMap
        (fun p => emitGroup (effectiveThreshold cfg) listApp p.2)) := rfl
  refine ⟨?_, ?_, ?_, ?_⟩
  · rw [hdef]
    exact sortBy_perm _ _
  · rw [hdef]
    exact sortBy_pairwise (fun a _ b _ => outageLe_total a b)
      (fun a _ b _ c _ hab hbc => outageLe_trans hab hbc)
  · intro o ho
    rw [hdef] at ho
    rcases List.mem_filterMap.mp (mem_sortBy.mp ho) with ⟨p, _, hp⟩
    rcases emitGroup_some_inv hp with ⟨total, hla, hpos, hne, hcov, rfl⟩
    refine ⟨?_, rfl, hpos, ?_, hcov, rfl⟩
    · exact sortBy_pairwise (fun a _ b _ => outageNodeLe_total a b)
        (fun a _ b _ c _ hab hbc => outageNodeLe_trans hab hbc)
    · intro hnil
      have hlen := congrArg List.length hnil
      rw [length_sortBy, List.length_map] at hlen
      exact hne (List.length_eq_zero.mp hlen)
  · intro p _ total hla hpos hne
    constructor
    · intro hsome
      rcases Option.isSome_iff_exists.mp hsome with ⟨o, ho⟩
      rcases emitGroup_some_inv ho with ⟨total', hla', _, _, hcov, _⟩
      rw [hla] at hla'
      injection hla' with htot
      rw [htot]
      exact hcov
    · intro hcov
      exact emitGroup_isSome hla hpos hne hcov

/-! ## Tree-building invariants (claims C10 and C7) -/

theorem mem_amodify {α : Type} {m : List (Str × α)} {k : Str} {f : α → α} {p : Str × α}
    (h : p ∈ amodify m k f) :
    ∃ p0 ∈ m, p = if p0.1 = k then (p0.1, f p0.2) else p0 := by
  induction m with
  | nil => simp [amodify] at h
  | cons q t ih =>
    obtain ⟨qk, qv⟩ := q
    by_cases h1 : qk = k
    · rw [amodify, if_pos h1] at h
      rcases List.mem_cons.mp h with rfl | h'
      · exact ⟨(qk, qv), by simp, by simp [h1]⟩
      · rcases ih h' with ⟨p0, hp0, hpe⟩
        exact ⟨p0, by simp [hp0], hpe⟩
    · rw [amodify, if_neg h1] at h
      rcases List.mem_cons.mp h with rfl | h'
      · exact ⟨(qk, qv), by simp, by simp [h1]⟩
      · rcases ih h' with ⟨p0, hp0, hpe⟩
        exact ⟨p0, by simp [hp0], hpe⟩

theorem alookup_isSome_of_mem_fst {α : Type} {m : List (Str × α)} {k : Str}
    (h : k ∈ m.map Prod.fst) : (alookup m k).isSome := by
  induction m with
  | nil => simp at h
  | cons p t ih =>
    obtain ⟨pk, pv⟩ := p
    by_cases h1 : pk = k
    · simp [alookup, h1]
    · simp only [List.map_cons] at h
      rcases List.mem_cons.mp h with h2 | h2
      · exact absurd h2.symm h1
      · simp only [alookup, h1, if_false]
        exact ih h2

theorem alookup_none_not_mem_fst {α : Type} {m : List (Str × α)} {k : Str}
    (h : alookup m k = none) : k ∉ m.map Prod.fst := by
  intro hmem
  have := alookup_isSome_of_mem_fst hmem
  rw [h] at this
  exact Bool.false_ne_true this

/-- The children/impacts agreement of a single tree node. -/
def childImpactAgree (n : TopoNodeA) : Prop := n.children = n.impacts.map Prod.fst

theorem agree_newTopoNode (node : Node) : childImpactAgree (newTopoNode node) := by
  simp [childImpactAgree, newTopoNode]

theorem agree_modifyNode {idx : Index} {k : Str} {f : TopoNodeA → TopoNodeA}
    (hInv : ∀ p ∈ idx, childImpactAgree p.2)
    (hf : ∀ n, childImpactAgree n → childImpactAgree (f n)) :
    ∀ p ∈ modifyNode idx k f, childImpactAgree p.2 := by
  intro p hp
  rcases mem_amodify hp with ⟨p0, hp0, hpe⟩
  by_cases h1 : p0.1 = k
  · rw [hpe, if_pos h1]
    exact hf p0.2 (hInv p0 hp0)
  · rw [hpe, if_neg h1]
    exact hInv p0 hp0

/-- Adding the impact bucket restores the agreement on a node whose
children list already holds the child key. -/
theorem agree_addImpact_state (w : TopoNodeA) (cref : NodeRef) (ref : AlarmEventRef)
    (h : w.children = addKey (w.impacts.map Prod.fst) cref.key) :
    childImpactAgree
      { w with impacts := setImpactEvent (impactBucketAdd w.impacts cref) cref.key ref } := by
  unfold childImpactAgree
  simp only []
  cases hl : alookup w.impacts cref.key with
  | some imp =>
    have hmem : cref.key ∈ w.impacts.map Prod.fst :=
      List.mem_map.mpr ⟨(cref.key, imp), alookup_mem hl, rfl⟩
    rw [setImpactEvent, amodify_map_fst, impactBucketAdd, hl, h, addKey, if_pos hmem]
  | none =>
    have hnmem : cref.key ∉ w.impacts.map Prod.fst := alookup_none_not_mem_fst hl
    rw [setImpactEvent, amodify_map_fst, impactBucketAdd, hl, h, addKey, if_neg hnmem]
    simp

/-- The paired `AttachChild`/`AddImpact` updates preserve the agreement
on every node of the index. -/
theorem agree_addImpact_attach {idx : Index} {pk : Str} {cref : NodeRef}
    {ref : AlarmEventRef} (hInv : ∀ p ∈ idx, childImpactAgree p.2) :
    ∀ p ∈ addImpactA (attachChildA idx pk cref.key) pk cref ref, childImpactAgree p.2 := by
  intro p hp
  rw [addImpactA] at hp
  rcases mem_amodify hp with ⟨p1, hp1, he1⟩
  rw [attachChildA, modifyNode] at hp1
  rcases mem_amodify hp1 with ⟨p2, hp2, he2⟩
  rw [modifyNode] at hp2
  rcases mem_amodify hp2 with ⟨p0, hp0, he0⟩
  have hagree0 := hInv p0 hp0
  by_cases hk0 : p0.1 = pk
  · -- the parent entry: children gain the key, then the impact is added
    rw [he0, if_pos hk0] at he2
    have hch : p1.2.children = addKey p0.2.children cref.key ∧
        p1.2.impacts = p0.2.impacts ∧ p1.1 = p0.1 := by
      by_cases hck : p0.1 = cref.key
      · rw [he2, if_pos hck]
        exact ⟨rfl, rfl, rfl⟩
      · rw [he2, if_neg hck]
        exact ⟨rfl, rfl, rfl⟩
    rcases hch with ⟨hc1, hc2, hc3⟩
    rw [he1, if_pos (hc3.trans hk0)]
    simp only []
    have hpre : p1.2.children = addKey (p1.2.impacts.map Prod.fst) cref.key := by
      rw [hc1, hc2, ← hagree0]
    exact agree_addImpact_state p1.2 cref ref hpre
  · -- any other entry: at most the parent pointer changes
    rw [he0, if_neg hk0] at he2
    have hch : p1.2.children = p0.2.children ∧ p1.2.impacts = p0.2.impacts ∧
        p1.1 = p0.1 := by
      by_cases hck : p0.1 = cref.key
      · rw [he2, if_pos hck]
        exact ⟨rfl, rfl, rfl⟩
      · rw [he2, if_neg hck]
        exact ⟨rfl, rfl, rfl⟩
    rcases hch with ⟨hc1, hc2, hc3⟩
    rw [he1, if_neg (by rw [hc3]; exact hk0)]
    unfold childImpactAgree
    rw [hc1, hc2]
    exact hagree0

theorem agree_processChain (rec : EventRecord) :
    ∀ (chain : List Node) (idx : Index) (child : Option NodeRef),
      (∀ p ∈ idx, childImpactAgree p.2) →
      (∀ p ∈ processChain idx rec child chain, childImpactAgree p.2) := by
  intro chain
  induction chain with
  | nil => intro idx child hInv; exact hInv
  | cons node rest ih =>
    intro idx child hInv
    simp only [processChain]
    apply ih
    have hens : ∀ p ∈ (ensureTopoNode idx node).1, childImpactAgree p.2 := by
      unfold ensureTopoNode
      cases hl : alookup idx node.ref.key with
      | some existing =>
        simp only []
        exact agree_modifyNode hInv (by
          intro n hn
          simpa [childImpactAgree] using hn)
      | none =>
        simp only []
        intro p hp
        rcases List.mem_append.mp hp with h | h
        · exact hInv p h
        · rcases List.mem_singleton.mp h with rfl
          exact agree_newTopoNode node
    have hev : ∀ p ∈ addEventA (ensureTopoNode idx node).1 (ensureTopoNode idx node).2.key
        rec.eventID { id := rec.eventID, ruleName := rec.ruleName,
                      nodeType := node.ref.type, occurred := rec.occurred },
        childImpactAgree p.2 := by
      apply agree_modifyNode hens
      intro n hn
      simpa [childImpactAgree] using hn
    cases child with
    | none => exact hev
    | some cref => exact agree_addImpact_attach hev

/-- C10.  After the tree-building phase every node's `Children` map and
`Impacts` map have exactly the same keys — the children list is the
impact key list, so the impacted-children count used by `Coverage`
equals the number of distinct children observed in the window. -/
theorem claim_C10 (records : List EventRecord) :
    ∀ p ∈ buildIndex records,
      p.2.children = p.2.impacts.map Prod.fst ∧
      p.2.impacts.length = p.2.children.length := by
  have h : ∀ p ∈ buildIndex records, childImpactAgree p.2 := by
    unfold buildIndex
    have haux : ∀ (recs : List EventRecord) (idx : Index),
        (∀ p ∈ idx, childImpactAgree p.2) →
        ∀ p ∈ recs.foldl (fun idx rec => processChain idx rec none rec.chain) idx,
          childImpactAgree p.2 := by
      intro recs
      induction recs with
      | nil => intro idx hInv; exact hInv
      | cons r rs ihr =>
        intro idx hInv
        simp only [List.foldl_cons]
        exact ihr _ (agree_processChain r r.chain idx none hInv)
    exact haux records [] (by simp)
  intro p hp
  refine ⟨h p hp, ?_⟩
  rw [h p hp, List.length_map]

/-- C10 witness: the key-set agreement on the parent node of the
concrete two-node analysis. -/
theorem claim_C10_witness :
    (str "P", exC10node) ∈ exC2idx ∧
      exC10node.children = exC10node.impacts.map Prod.fst ∧
      exC10node.impacts.length = exC10node.children.length := by
  have hmem : (str "P", exC10node) ∈ exC2idx := by
    simp +decide [exC2idx, exC2rec, exC2nodeC, exC2nodeP, exC10node, buildIndex,
      processChain, ensureTopoNode, newTopoNode, addEventA, attachChildA, addImpactA,
      impactBucketAdd, modifyNode, amodify, aset, alookup, setImpactEvent, addKey,
      mergeChildCounts, str]
  exact ⟨hmem, (claim_C10 [exC2rec] _ hmem).1, (claim_C10 [exC2rec] _ hmem).2⟩


/-! ## Host/Physical exclusivity (claim C7) -/

/-- Part (a) of C7: `chainFromRecord` never returns both machine-tier
slots — when both were present the physical machine is dropped. -/
theorem chainFromRecord_exclusive (r : RecordSlots) :
    ¬((chainFromRecord r).hostMachine.isSome ∧
      (chainFromRecord r).physicalMachine.isSome) := by
  intro ⟨hh, hp⟩
  simp only [chainFromRecord] at hh hp
  by_cases hc : (setChildCount r.host NodeTypeVirtualMachine r.hostVmCount).isSome
      ∧ r.physical.isSome
  · rw [if_pos hc] at hp
    simp at hp
  · rw [if_neg hc] at hp
    exact hc ⟨hh, hp⟩

theorem setChildCount_ref {nOpt : Option Node} {t : NodeType} {v : Int} {n' : Node}
    (h : setChildCount nOpt t v = some n') : ∃ n0, nOpt = some n0 ∧ n'.ref = n0.ref := by
  cases nOpt with
  | none => simp [setChildCount] at h
  | some n0 =>
    refine ⟨n0, rfl, ?_⟩
    simp only [setChildCount] at h
    split_ifs at h <;> (injection h with h2; subst h2; rfl)

theorem mem_chainToNodes {c : Chain} {a : Node} (h : a ∈ chainToNodes c) :
    c.app = some a ∨ c.virtualMachine = some a ∨ c.hostMachine = some a ∨
    c.physicalMachine = some a ∨ c.netPartition = some a ∨ c.idc = some a := by
  rcases List.mem_filterMap.mp h with ⟨o, ho, hoa⟩
  simp only [id_eq] at hoa
  subst hoa
  simp only [List.mem_cons, List.not_mem_nil, or_false] at ho
  tauto

/-- Every node of a well-typed record's chain carries the node type of
its slot; in particular a `HostMachine`-typed node is the host slot and
a `PhysicalMachine`-typed node is the physical slot. -/
theorem chain_no_host_physical {rs : RecordSlots} (hwt : WellTypedSlots rs)
    {a b : Node} (ha : a ∈ chainToNodes (chainFromRecord rs))
    (hb : b ∈ chainToNodes (chainFromRecord rs)) :
    ¬(a.ref.type = NodeTypeHostMachine ∧ b.ref.type = NodeTypePhysicalMachine) := by
  rcases hwt with ⟨hwApp, hwVm, hwHost, hwPhys, hwNp, hwIdc⟩
  intro ⟨hat, hbt⟩
  have hslots : ∀ x : Node, x ∈ chainToNodes (chainFromRecord rs) →
      (x.ref.type = NodeTypeHostMachine → (chainFromRecord rs).hostMachine = some x) ∧
      (x.ref.type = NodeTypePhysicalMachine →
        (chainFromRecord rs).physicalMachine = some x) := by
    intro x hx
    rcases mem_chainToNodes hx with h | h | h | h | h | h
    · have := hwApp x (by simpa [chainFromRecord] using h)
      constructor <;> (intro ht; rw [ht] at this; exact absurd this (by decide))
    · have hvm : (chainFromRecord rs).virtualMachine
          = setChildCount rs.vm NodeTypeApp rs.vmAppCount := rfl
      rcases setChildCount_ref (hvm ▸ h) with ⟨n0, hn0, href⟩
      have := hwVm n0 hn0
      rw [← href] at this
      constructor <;> (intro ht; rw [ht] at this; exact absurd this (by decide))
    · constructor
      · intro _; exact h
      · intro ht
        have hh : (chainFromRecord rs).hostMachine
            = setChildCount rs.host NodeTypeVirtualMachine rs.hostVmCount := rfl
        rcases setChildCount_ref (hh ▸ h) with ⟨n0, hn0, href⟩
        have := hwHost n0 hn0
        rw [← href, ht] at this
        exact absurd this (by decide)
    · constructor
      · intro ht
        have hphys : ∃ n0, rs.physical = some n0 ∧ x = n0 := by
          simp only [chainFromRecord] at h
          by_cases hc : (setChildCount rs.host NodeTypeVirtualMachine
              rs.hostVmCount).isSome ∧ rs.physical.isSome
          · rw [if_pos hc] at h
            exact absurd h (by simp)
          · rw [if_neg hc] at h
            exact ⟨x, h, rfl⟩
        rcases hphys with ⟨n0, hn0, rfl⟩
        have := hwPhys _ hn0
        rw [ht] at this
        exact absurd this (by decide)
      · intro _; exact h
    · have hnp : (chainFromRecord rs).netPartition
        = setChildCount (setChildCount rs.np NodeTypeHostMachine rs.npHostCount)
            NodeTypePhysicalMachine rs.npPhysicalCount := rfl
      rcases setChildCount_ref (hnp ▸ h) with ⟨n1, hn1, href1⟩
      rcases setChildCount_ref hn1 with ⟨n0, hn0, href0⟩
      have := hwNp n0 hn0
      rw [← href0, ← href1] at this
      constructor <;> (intro ht; rw [ht] at this; exact absurd this (by decide))
    · have hidc : (chainFromRecord rs).idc
        = setChildCount rs.idc NodeTypeNetPartition rs.idcNpCount := rfl
      rcases setChildCount_ref (hidc ▸ h) with ⟨n0, hn0, href⟩
      have := hwIdc n0 hn0
      rw [← href] at this
      constructor <;> (intro ht; rw [ht] at this; exact absurd this (by decide))
  have hH : (chainFromRecord rs).hostMachine = some a := (hslots a ha).1 hat
  have hP : (chainFromRecord rs).physicalMachine = some b := (hslots b hb).2 hbt
  exact chainFromRecord_exclusive rs ⟨by simp [hH], by simp [hP]⟩

theorem invTP_modify {R : List EventRecord} {idx : Index} {k : Str}
    {f : TopoNodeA → TopoNodeA}
    (hInv : ∀ p ∈ idx, nodeOriginP R p ∧ eventCarrierP R p)
    (hf : ∀ n, (f n).node.ref = n.node.ref ∧ (f n).events = n.events) :
    ∀ p ∈ modifyNode idx k f, nodeOriginP R p ∧ eventCarrierP R p := by
  intro p hp
  rcases mem_amodify hp with ⟨p0, hp0, hpe⟩
  by_cases h1 : p0.1 = k
  · rw [hpe, if_pos h1]
    rcases hInv p0 hp0 with ⟨ho, hc⟩
    rcases hf p0.2 with ⟨hr, he⟩
    constructor
    · unfold nodeOriginP at *
      simp only [hr]
      exact ho
    · unfold eventCarrierP at *
      intro e he2
      simp only [he] at he2
      exact hc e he2
  · rw [hpe, if_neg h1]
    exact hInv p0 hp0

theorem ensureTopoNode_key {R : List EventRecord} {idx : Index} {node : Node}
    (hInv : ∀ p ∈ idx, nodeOriginP R p ∧ eventCarrierP R p) :
    (ensureTopoNode idx node).2.key = node.ref.key := by
  unfold ensureTopoNode
  cases hl : alookup idx node.ref.key with
  | none => rfl
  | some ex =>
    have := (hInv (node.ref.key, ex) (alookup_mem hl)).1.1
    exact this.symm

theorem invTP_ensure {R : List EventRecord} {rec : EventRecord} (hrec : rec ∈ R)
    {node : Node} (hnode : node ∈ rec.chain) {idx : Index}
    (hInv : ∀ p ∈ idx, nodeOriginP R p ∧ eventCarrierP R p) :
    ∀ p ∈ (ensureTopoNode idx node).1, nodeOriginP R p ∧ eventCarrierP R p := by
  unfold ensureTopoNode
  cases hl : alookup idx node.ref.key with
  | some ex =>
    simp only []
    exact invTP_modify hInv (fun n => ⟨rfl, rfl⟩)
  | none =>
    simp only []
    intro p hp
    rcases List.mem_append.mp hp with h | h
    · exact hInv p h
    · rcases List.mem_singleton.mp h with rfl
      constructor
      · exact ⟨rfl, rec, hrec, node, hnode, rfl, rfl⟩
      · intro e he2
        simp [newTopoNode, alookup] at he2

theorem invTP_addEvent {R : List EventRecord} {rec : EventRecord} (hrec : rec ∈ R)
    {node : Node} (hnode : node ∈ rec.chain) {idx : Index}
    (hInv : ∀ p ∈ idx, nodeOriginP R p ∧ eventCarrierP R p) (ref : AlarmEventRef) :
    ∀ p ∈ addEventA idx node.ref.key rec.eventID ref,
      nodeOriginP R p ∧ eventCarrierP R p := by
  intro p hp
  rw [addEventA] at hp
  rcases mem_amodify hp with ⟨p0, hp0, hpe⟩
  by_cases h1 : p0.1 = node.ref.key
  · rw [hpe, if_pos h1]
    rcases hInv p0 hp0 with ⟨ho, hc⟩
    constructor
    · unfold nodeOriginP at *
      exact ho
    · intro e he2
      simp only [] at he2
      rw [alookup_aset] at he2
      by_cases heq : rec.eventID = e
      · exact ⟨rec, hrec, heq, node, hnode, h1.symm⟩
      · rw [if_neg heq] at he2
        exact hc e he2
  · rw [hpe, if_neg h1]
    exact hInv p0 hp0

theorem invTP_processChain (R : List EventRecord) (rec : EventRecord) (hrec : rec ∈ R) :
    ∀ (chain : List Node), (∀ nd ∈ chain, nd ∈ rec.chain) →
    ∀ (idx : Index) (child : Option NodeRef),
      (∀ p ∈ idx, nodeOriginP R p ∧ eventCarrierP R p) →
      (∀ p ∈ processChain idx rec child chain, nodeOriginP R p ∧ eventCarrierP R p) := by
  intro chain
  induction chain with
  | nil => intro _ idx child hInv; exact hInv
  | cons node rest ih =>
    intro hsub idx child hInv
    simp only [processChain]
    apply ih (fun nd hnd => hsub nd (by simp [hnd]))
    have hnode : node ∈ rec.chain := hsub node (by simp)
    have h1 := invTP_ensure hrec hnode hInv
    have hkey : (ensureTopoNode idx node).2.key = node.ref.key :=
      ensureTopoNode_key hInv
    have h2 : ∀ p ∈ addEventA (ensureTopoNode idx node).1
        (ensureTopoNode idx node).2.key rec.eventID
        { id := rec.eventID, ruleName := rec.ruleName, nodeType := node.ref.type,
          occurred := rec.occurred },
        nodeOriginP R p ∧ eventCarrierP R p := by
      rw [hkey]
      exact invTP_addEvent hrec hnode h1 _
    cases child with
    | none => exact h2
    | some cref =>
      simp only []
      rw [addImpactA, attachChildA]
      exact invTP_modify
        (invTP_modify (invTP_modify h2 (fun n => ⟨rfl, rfl⟩)) (fun n => ⟨rfl, rfl⟩))
        (fun n => ⟨rfl, rfl⟩)

theorem invTP_buildIndex (records : List EventRecord) :
    ∀ p ∈ buildIndex records, nodeOriginP records p ∧ eventCarrierP records p := by
  unfold buildIndex
  have haux : ∀ (recs : List EventRecord), (∀ r ∈ recs, r ∈ records) →
      ∀ (idx : Index), (∀ p ∈ idx, nodeOriginP records p ∧ eventCarrierP records p) →
      ∀ p ∈ recs.foldl (fun idx rec => processChain idx rec none rec.chain) idx,
        nodeOriginP records p ∧ eventCarrierP records p := by
    intro recs
    induction recs with
    | nil => intro _ idx hInv; exact hInv
    | cons r rs ihr =>
      intro hsub idx hInv
      simp only [List.foldl_cons]
      exact ihr (fun r' hr' => hsub r' (by simp [hr']))
        _ (invTP_processChain records r (hsub r (by simp)) r.chain
            (fun nd hnd => hnd) idx none hInv)
  exact haux records (fun r hr => hr) [] (by simp)

/-- C7.  Host/Physical exclusivity.  (a) `chainFromRecord` never keeps
both machine-tier slots: when the oracle record holds both a host and a
physical machine, the physical machine is dropped.  (b) Consequently, in
the tree built from chains assembled by `chainFromRecord` out of
well-typed records — with per-key type consistency and distinct event
ids — no two nodes carrying the same event are a `HostMachine` and a
`PhysicalMachine`; in particular no alarm path contains both tiers in
one ancestry chain for the same event. -/
theorem claim_C7 :
    (∀ r : RecordSlots,
      ¬((chainFromRecord r).hostMachine.isSome ∧
        (chainFromRecord r).physicalMachine.isSome)) ∧
    (∀ records : List EventRecord,
      (∀ rec ∈ records, ∃ rs, WellTypedSlots rs ∧
        rec.chain = chainToNodes (chainFromRecord rs)) →
      (records.map (fun r => r.eventID)).Nodup →
      (∀ r1 ∈ records, ∀ r2 ∈ records, ∀ a ∈ r1.chain, ∀ b ∈ r2.chain,
        a.ref.key = b.ref.key → a.ref.type = b.ref.type) →
      ∀ p1 ∈ buildIndex records, ∀ p2 ∈ buildIndex records, ∀ e : Str,
        (alookup p1.2.events e).isSome → (alookup p2.2.events e).isSome →
        ¬(p1.2.node.ref.type = NodeTypeHostMachine ∧
          p2.2.node.ref.type = NodeTypePhysicalMachine)) := by
  refine ⟨chainFromRecord_exclusive, ?_⟩
  intro records hwt hid hcons p1 hp1 p2 hp2 e he1 he2 ⟨ht1, ht2⟩
  rcases invTP_buildIndex records p1 hp1 with ⟨⟨hk1, ro1, hro1, b1, hb1, hbk1, hbt1⟩, hc1⟩
  rcases invTP_buildIndex records p2 hp2 with ⟨⟨hk2, ro2, hro2, b2, hb2, hbk2, hbt2⟩, hc2⟩
  rcases hc1 e he1 with ⟨rec1, hrec1, hid1, a1, ha1, hak1⟩
  rcases hc2 e he2 with ⟨rec2, hrec2, hid2, a2, ha2, hak2⟩
  have hreceq : rec1 = rec2 :=
    List.inj_on_of_nodup_map hid hrec1 hrec2 (hid1.trans hid2.symm)
  subst hreceq
  have hat1 : a1.ref.type = NodeTypeHostMachine := by
    have := hcons rec1 hrec1 ro1 hro1 a1 ha1 b1 hb1 (hak1.trans hbk1.symm)
    rw [this, hbt1]
    exact ht1
  have hat2 : a2.ref.type = NodeTypePhysicalMachine := by
    have := hcons rec1 hrec1 ro2 hro2 a2 ha2 b2 hb2 (hak2.trans hbk2.symm)
    rw [this, hbt2]
    exact ht2
  rcases hwt rec1 hrec1 with ⟨rs, hrs, hchain⟩
  rw [hchain] at ha1 ha2
  exact chain_no_host_physical hrs ha1 ha2 ⟨hat1, hat2⟩

/-- C7 witness: part (b) instantiated on the concrete host-only record;
the single interned node carries the event and is a `HostMachine`, so it
cannot simultaneously be typed `PhysicalMachine`. -/
theorem claim_C7_witness :
    ¬((str "H7", exC7entry).2.node.ref.type = NodeTypeHostMachine ∧
      (str "H7", exC7entry).2.node.ref.type = NodeTypePhysicalMachine) := by
  have hmem : (str "H7", exC7entry) ∈ buildIndex [exC7rec] := by
    simp +decide [exC7rec, exC7slots, exC7host, exC7entry, buildIndex, processChain,
      ensureTopoNode, newTopoNode, addEventA, modifyNode, amodify, aset, alookup,
      chainFromRecord, chainToNodes, setChildCount, str]
  have hev : (alookup (str "H7", exC7entry).2.events (str "e7")).isSome := by
    simp +decide [exC7entry, alookup, str]
  refine claim_C7.2 [exC7rec] ?_ (by simp) ?_ (str "H7", exC7entry) hmem
    (str "H7", exC7entry) hmem (str "e7") hev hev
  · intro rec hrec
    rcases List.mem_singleton.mp hrec with rfl
    refine ⟨exC7slots, ?_, rfl⟩
    refine ⟨?_, ?_, ?_, ?_, ?_, ?_⟩
    · intro n hn; simp [exC7slots] at hn
    · intro n hn; simp [exC7slots] at hn
    · intro n hn
      simp only [exC7slots] at hn
      injection hn with hn
      rw [← hn]
      rfl
    · intro n hn; simp [exC7slots] at hn
    · intro n hn; simp [exC7slots] at hn
    · intro n hn; simp [exC7slots] at hn
  · intro r1 hr1 r2 hr2 a ha b hb hk
    rcases List.mem_singleton.mp hr1 with rfl
    rcases List.mem_singleton.mp hr2 with rfl
    have hch : exC7rec.chain = [exC7host] := by
      simp +decide [exC7rec, exC7slots, exC7host, chainFromRecord, chainToNodes,
        setChildCount, str]
    rw [hch] at ha hb
    rcases List.mem_singleton.mp ha with rfl
    rcases List.mem_singleton.mp hb with rfl
    rfl

/-! ## Error contract of `Analyze` (claim C9) -/

theorem resolveAll_error_of_mem {resolve : AlarmEvent → Except Str (List Node)}
    {events : List AlarmEvent}
    (h : ∃ e ∈ events, ∃ msg, resolve e = Except.error msg) :
    ∃ msg, resolveAll resolve events = Except.error msg := by
  induction events with
  | nil => rcases h with ⟨e, he, _⟩; simp at he
  | cons evt rest ih =>
    rcases h with ⟨e, he, msg, hmsg⟩
    rcases List.mem_cons.mp he with rfl | he'
    · rw [resolveAll, hmsg]
      exact ⟨_, rfl⟩
    · cases hr : resolve evt with
      | error m => rw [resolveAll, hr]; exact ⟨_, rfl⟩
      | ok chain =>
        rcases ih ⟨e, he', msg, hmsg⟩ with ⟨m, hm⟩
        rw [resolveAll, hr, hm]
        exact ⟨m, rfl⟩

theorem resolveAll_ok_of_all {resolve : AlarmEvent → Except Str (List Node)}
    {events : List AlarmEvent}
    (h : ∀ e ∈ events, ∃ chain, resolve e = Except.ok chain) :
    ∃ recs, resolveAll resolve events = Except.ok recs := by
  induction events with
  | nil => exact ⟨[], rfl⟩
  | cons evt rest ih =>
    rcases h evt (by simp) with ⟨chain, hc⟩
    rcases ih (fun e he => h e (by simp [he])) with ⟨recs, hr⟩
    rw [resolveAll, hc, hr]
    exact ⟨_, rfl⟩

/-- C9.  The error contract of `Analyze`: an empty batch is rejected
with the zero `Result`; whenever `Analyze` reports an error the returned
`Result` is the zero value (no partial result accompanies an error); a
failing chain resolution makes the whole call fail; when every
resolution succeeds the call succeeds regardless of `ListAppInstances`
failures; and every emitted outage comes from a group whose
`ListAppInstances` call succeeded with a positive total — a failing
group is merely skipped. -/
theorem claim_C9 (cfg : Config) (resolve : AlarmEvent → Except Str (List Node))
    (listApp : Str → Str → Except Str Int) (render : Result → Str) :
    (AnalyzeGo cfg resolve listApp render [] = (zeroResult, some (str "empty alarms"))) ∧
    (∀ events : List AlarmEvent, (AnalyzeGo cfg resolve listApp render events).2 ≠ none →
      (AnalyzeGo cfg resolve listApp render events).1 = zeroResult) ∧
    (∀ events : List AlarmEvent, (∃ e ∈ events, ∃ msg, resolve e = Except.error msg) →
      (AnalyzeGo cfg resolve listApp render events).2 ≠ none) ∧
    (∀ events : List AlarmEvent, events ≠ [] →
      (∀ e ∈ events, ∃ chain, resolve e = Except.ok chain) →
      (AnalyzeGo cfg resolve listApp render events).2 = none) ∧
    (∀ events : List AlarmEvent,
      ∀ o ∈ (AnalyzeGo cfg resolve listApp render events).1.appOutages,
      ∃ total : Int, listApp o.appName o.datacenter = Except.ok total ∧ 0 < total) := by
  refine ⟨rfl, ?_, ?_, ?_, ?_⟩
  · intro events herr
    by_cases h0 : events = []
    · subst h0
      rfl
    · rw [AnalyzeGo, if_neg h0] at herr ⊢
      cases hr : resolveAll resolve events with
      | error e => rfl
      | ok recs =>
        rw [hr] at herr
        simp at herr
  · intro events ⟨e, he, msg, hmsg⟩
    have h0 : events ≠ [] := by
      intro h
      subst h
      simp at he
    rw [AnalyzeGo, if_neg h0]
    rcases resolveAll_error_of_mem ⟨e, he, msg, hmsg⟩ with ⟨m, hm⟩
    rw [hm]
    simp
  · intro events h0 hall
    rw [AnalyzeGo, if_neg h0]
    rcases resolveAll_ok_of_all hall with ⟨recs, hr⟩
    rw [hr]
  · intro events o ho
    by_cases h0 : events = []
    · subst h0
      simp [AnalyzeGo, zeroResult] at ho
    · rw [AnalyzeGo, if_neg h0] at ho
      cases hr : resolveAll resolve events with
      | error e =>
        rw [hr] at ho
        simp [zeroResult] at ho
      | ok recs =>
        rw [hr] at ho
        simp only [] at ho
        have ho' : o ∈ computeAppOutages cfg listApp events := ho
        have hperm : (computeAppOutages cfg listApp events).Perm
            ((buildGroups events).filterMap
              (fun p => emitGroup (effectiveThreshold cfg) listApp p.2)) := by
          exact sortBy_perm _ _
        rcases List.mem_filterMap.mp (hperm.mem_iff.mp ho') with ⟨p, _, hp⟩
        rcases emitGroup_some_inv hp with ⟨total, hla, hpos, _, _, rfl⟩
        exact ⟨total, hla, hpos⟩

/-- C9 witness: the error contract instantiated on concrete one-event
batches with an all-ok resolver, an always-failing resolver, and a
failing Stage-A oracle. -/
theorem claim_C9_witness :
    (AnalyzeGo exC8cfg (fun _ => Except.ok []) exC8listApp (fun _ => []) []
      = (zeroResult, some (str "empty alarms"))) ∧
    ((AnalyzeGo exC8cfg (fun _ => Except.error (str "boom")) exC8listApp (fun _ => [])
      [exC8evt]).2 ≠ none) ∧
    ((AnalyzeGo exC8cfg (fun _ => Except.error (str "boom")) exC8listApp (fun _ => [])
      [exC8evt]).1 = zeroResult) ∧
    ((AnalyzeGo exC8cfg (fun _ => Except.ok [])
      (fun _ _ => Except.error (str "down")) (fun _ => []) [exC8evt]).2 = none) := by
  have herr : (AnalyzeGo exC8cfg (fun _ => Except.error (str "boom")) exC8listApp
      (fun _ => []) [exC8evt]).2 ≠ none :=
    (claim_C9 exC8cfg (fun _ => Except.error (str "boom")) exC8listApp (fun _ => [])).2.2.1
      [exC8evt] ⟨exC8evt, by simp, str "boom", rfl⟩
  refine ⟨(claim_C9 exC8cfg (fun _ => Except.ok []) exC8listApp (fun _ => [])).1,
    herr,
    (claim_C9 exC8cfg (fun _ => Except.error (str "boom")) exC8listApp (fun _ => [])).2.1
      [exC8evt] herr,
    (claim_C9 exC8cfg (fun _ => Except.ok []) (fun _ _ => Except.error (str "down"))
      (fun _ => [])).2.2.2.1 [exC8evt] (by simp) (fun e _ => ⟨[], rfl⟩)⟩

/-- C8 witness: the Stage-A description instantiated on a one-event
batch for `(billing, M5)` with one deployment target and threshold 1. -/
theorem claim_C8_witness :
    ((computeAppOutages exC8cfg exC8listApp [exC8evt]).Pairwise
      (fun a b => outageLe a b = true)) ∧
    ((emitGroup (effectiveThreshold exC8cfg) exC8listApp exC8grp).isSome ↔
      effectiveThreshold exC8cfg
        ≤ ((collapseAlarmedNodes exC8grp.events).length : ℚ) / ((1 : Int) : ℚ)) :=
  ⟨(claim_C8 exC8cfg exC8listApp [exC8evt]).2.1,
   (claim_C8 exC8cfg exC8listApp [exC8evt]).2.2.2
    (str "billing" ++ str "|" ++ str "M5", exC8grp)
    (by
      simp +decide [buildGroups, exC8evt, exC8grp, isBlank, alookup, amodify, str])
    1 rfl (by norm_num)
    (by
      simp +decide [collapseAlarmedNodes, exC8grp, exC8evt, collapseStep,
        normalizeEventKey, ServerTypeHost, ServerTypePhysical, alookup, amodify, addKey,
        sortedStrings, sortBy, insertSorted, str])⟩

end RcaV2
